import Mathlib

/-!
Verification of the Supermarket-Checkout-Line simulation.

The repository contains two near-duplicate SimPy programs,
`supermarket_checkout_line_simulation.py` (the "underscore" variant, which
the unit tests use) and `supermarket-checkout-line-simulation.py`
(the "hyphen" variant).  Both build a `SupermarketCheckout` object that starts
a customer-arrival generator process and a queue-monitor process, run the
SimPy environment to a horizon, and read statistics.

This file gives a shallow embedding of both variants over exact rational
arithmetic.  Randomness is made explicit: Python's
`random.expovariate(lambd)` computes `-log(1 - random()) / lambd`, so the
random source is modelled as a stream `draws : ℕ → ℚ` of the nonnegative
unit-exponential values `-log(1 - random())`, consumed one per call, and
`expovariate` divides the next stream element by the rate (raising
ZeroDivisionError when the rate is zero, exactly as Python does).

The SimPy scheduler is embedded as an explicit event queue ordered by
(time, rank, event id) — rank 0 is SimPy's URGENT priority (process
initialisation, the `run(until=...)` stop marker) and rank 1 is NORMAL
(timeouts, resource-request and release events).  Each suspended process is
represented by the resumption point the scheduled event would drive.

One deliberate simplification: when a SimPy generator terminates, SimPy
schedules the Process event itself so that processes waiting on it resume;
in this program no process ever waits on another, so these termination
events have no callbacks — delivering one changes no state, and the extra
event ids they consume shift all later ids uniformly, which cannot change
the relative (time, rank, id) order of any two other events.  The embedding
therefore omits them.
-/

namespace Checkout

/-- Errors that the Python code can actually raise, plus two artifacts of the
embedding: `emptySchedule` mirrors SimPy's `EmptySchedule`/RuntimeError when
the event queue drains before the `until` marker, and `fuelExhausted` marks
that the step budget of the embedding ran out (Python simply keeps running).
`zeroDivision` is Python's ZeroDivisionError (from `expovariate(0)`),
`negativeDelay` is SimPy's ValueError for `timeout` with a negative delay,
`statisticsError` is `statistics.StatisticsError` from `statistics.mean([])`,
and `shapeMismatch` is the numpy error raised by `np.average` when the value
and weight arrays have different lengths. -/
inductive SimError where
  | zeroDivision
  | negativeDelay
  | statisticsError
  | shapeMismatch
  | emptySchedule
  | fuelExhausted
deriving DecidableEq

/-- Resumption points of the three process kinds.  `arrivalStart` is the
`Initialize` event of `customer_arrivals`, `arrivalWake` its resumption after
an inter-arrival timeout; `monitorWake` drives `monitor_queue` (its
initialisation and each later wake-up run the same loop top); a customer
process `customer_service` is resumed at `custStart` (its `Initialize`
event), `custGranted` (the resource request succeeded) and `custDone` (the
service timeout fired); `releaseDone` is the processing of the resource
`Release` event, whose callback promotes the next queued request; `untilEvt`
is the stop marker that `env.run(until=simulation_duration)` schedules at the
horizon with URGENT priority. -/
inductive Proc where
  | arrivalStart
  | arrivalWake
  | monitorWake
  | custStart (pid : ℕ)
  | custGranted (pid : ℕ)
  | custDone (pid : ℕ)
  | releaseDone (pid : ℕ)
  | untilEvt
deriving DecidableEq

/-- A pending event of the SimPy queue: scheduled time, priority rank
(0 = URGENT, 1 = NORMAL), the event id drawn from the environment's counter,
and the resumption the event drives. -/
structure Ev where
  time : ℚ
  rank : ℕ
  eid : ℕ
  proc : Proc
deriving DecidableEq

def rankUrgent : ℕ := 0

def rankNormal : ℕ := 1

/-- The heap order of SimPy's event queue: lexicographic on
(time, rank, event id). -/
def evLe (a b : Ev) : Bool :=
  decide (a.time < b.time ∨ (a.time = b.time ∧
    (a.rank < b.rank ∨ (a.rank = b.rank ∧ a.eid ≤ b.eid))))

/-- Pop the minimum of the event queue under `evLe` (the event SimPy's heap
delivers next), returning it together with the remaining queue. -/
def popMin : List Ev → Option (Ev × List Ev)
  | [] => none
  | x :: xs =>
    match popMin xs with
    | none => some (x, [])
    | some (m, rest) => if evLe x m then some (x, xs) else some (m, x :: rest)

/-- Static data of one simulation run: which source file is being modelled,
the unit-exponential random stream, and the three parameters of
`run_simulation`. -/
structure SimConfig where
  variantH : Bool
  draws : ℕ → ℚ
  arrival_rate : ℚ
  service_rate : ℚ
  simulation_duration : ℚ

/-- The mutable state of one run: the clock and event queue of the SimPy
environment, the statistics fields of `SupermarketCheckout`, and the state of
the single-cashier `simpy.Resource` (`users` is its holder list, bounded by
the capacity check, `put_queue` its FIFO wait queue, which is what
`len(self.cashier.queue)` measures).  `service_times` and
`service_start_times` are real fields of the hyphen variant and serve as
ghost trace data for the underscore variant; `requested`, `granted` and
`delivered` are ghost traces recording the order of resource requests, the
order of grants, and every event the scheduler delivered. -/
structure SimState where
  now : ℚ
  events : List Ev
  nextEid : ℕ
  nextPid : ℕ
  drawIdx : ℕ
  arrival_times : List (ℕ × ℚ)
  waiting_times : List ℚ
  queue_lengths : List ℕ
  queue_length_times : List ℚ
  cashier_busy_time : ℚ
  max_queue_length : ℕ
  users : List ℕ
  put_queue : List ℕ
  service_times : List ℚ
  service_start_times : List ℚ
  requested : List ℕ
  granted : List ℕ
  delivered : List Ev
deriving DecidableEq

/-- `random.expovariate(lambd)` on the next unit-exponential draw `e`:
Python computes `-log(1 - random()) / lambd`, raising ZeroDivisionError when
`lambd == 0` and silently returning a negative value when `lambd < 0`. -/
def expovariate (lambd : ℚ) (e : ℚ) : Except SimError ℚ :=
  if lambd = 0 then .error .zeroDivision else .ok (e / lambd)

/-- Schedule a new event at the given time and rank, consuming a fresh event
id (SimPy `Environment.schedule`). -/
def appendEvent (s : SimState) (time : ℚ) (rank : ℕ) (p : Proc) : SimState :=
  { s with events := s.events ++ [⟨time, rank, s.nextEid, p⟩],
           nextEid := s.nextEid + 1 }

/-- `env.timeout(delay)` followed by suspension: SimPy raises ValueError on a
negative delay, otherwise the resumption is scheduled `delay` later with
NORMAL priority. -/
def timeout (s : SimState) (delay : ℚ) (p : Proc) : Except SimError SimState :=
  if delay < 0 then .error .negativeDelay
  else .ok (appendEvent s (s.now + delay) rankNormal p)

/-- `BaseResource._trigger_put` for a capacity-1 `simpy.Resource`: if the
holder list has room, the front request of the FIFO `put_queue` is granted —
it moves into `users`, and the success of its `Request` event is scheduled at
the current time with NORMAL priority, which will resume the owning customer
process.  (`_do_put` returns `None`, so the loop in `_trigger_put` stops
after the first queued request.) -/
def triggerPut (s : SimState) : SimState :=
  if s.users.length < 1 then
    match s.put_queue with
    | [] => s
    | pid :: rest =>
      appendEvent
        { s with users := s.users ++ [pid], put_queue := rest,
                 granted := s.granted ++ [pid] }
        s.now rankNormal (.custGranted pid)
  else s

/-- Spawn a new `customer_service` process: `env.process(...)` schedules its
`Initialize` event at the current time with URGENT priority.  The generator
body does not run until that event is delivered. -/
def spawnCustomer (s : SimState) : SimState :=
  appendEvent { s with nextPid := s.nextPid + 1 } s.now rankUrgent
    (.custStart s.nextPid)

/-- Loop top of `customer_arrivals` in the underscore variant:
`while env.now <= simulation_duration:` then, if `arrival_rate > 0`, draw an
exponential inter-arrival delay and suspend on a timeout; otherwise `break`
(the explicit guard that prevents a division-by-zero error). -/
def uArrivalLoop (cfg : SimConfig) (s : SimState) : Except SimError SimState :=
  if s.now ≤ cfg.simulation_duration then
    if cfg.arrival_rate > 0 then
      match expovariate cfg.arrival_rate (cfg.draws s.drawIdx) with
      | .error err => .error err
      | .ok delay =>
        timeout { s with drawIdx := s.drawIdx + 1 } delay .arrivalWake
    else .ok s
  else .ok s

/-- Loop top of `customer_arrivals` in the hyphen variant: `while True:` draw
an exponential inter-arrival delay unconditionally (so `arrival_rate = 0`
raises ZeroDivisionError) and suspend on a timeout. -/
def hArrivalLoop (cfg : SimConfig) (s : SimState) : Except SimError SimState :=
  match expovariate cfg.arrival_rate (cfg.draws s.drawIdx) with
  | .error err => .error err
  | .ok delay =>
    timeout { s with drawIdx := s.drawIdx + 1 } delay .arrivalWake

/-- First resumption of the arrival generator (its `Initialize` event). -/
def arrivalStartStep (cfg : SimConfig) (s : SimState) :
    Except SimError SimState :=
  if cfg.variantH then hArrivalLoop cfg s else uArrivalLoop cfg s

/-- Resumption of the arrival generator after an inter-arrival timeout.  The
underscore variant spawns the customer process and then re-enters the loop
top; the hyphen variant first checks `env.now > simulation_duration` and
terminates without spawning past the horizon, otherwise spawns and loops. -/
def arrivalWakeStep (cfg : SimConfig) (s : SimState) :
    Except SimError SimState :=
  if cfg.variantH then
    if s.now > cfg.simulation_duration then .ok s
    else hArrivalLoop cfg (spawnCustomer s)
  else uArrivalLoop cfg (spawnCustomer s)

/-- Loop top of `monitor_queue` (identical in both variants): while
`env.now <= simulation_duration`, record `(len(cashier.queue), env.now)`,
update the running maximum, and suspend for 0.1 minutes. -/
def monitorStep (cfg : SimConfig) (s : SimState) : Except SimError SimState :=
  if s.now ≤ cfg.simulation_duration then
    timeout
      { s with queue_lengths := s.queue_lengths ++ [s.put_queue.length],
               queue_length_times := s.queue_length_times ++ [s.now],
               max_queue_length := max s.max_queue_length s.put_queue.length }
      (1/10) .monitorWake
  else .ok s

/-- Per-customer record of the arrival time captured at the top of
`customer_service` (0 if the id is unknown, which cannot happen in a run). -/
def lookupArrival (l : List (ℕ × ℚ)) (pid : ℕ) : ℚ :=
  match l.find? (fun p => p.1 == pid) with
  | some p => p.2
  | none => 0

/-- Start of `customer_service`: capture `arrival_time = env.now`, then
`cashier.request()` — the request is appended to the resource's FIFO
`put_queue` and `_trigger_put` immediately grants the front request when the
holder list has room.  The process suspends on `yield request` either way. -/
def custStartStep (s : SimState) (pid : ℕ) : SimState :=
  triggerPut { s with arrival_times := s.arrival_times ++ [(pid, s.now)],
                      requested := s.requested ++ [pid],
                      put_queue := s.put_queue ++ [pid] }

/-- The tail of `customer_service` after the wait time is recorded: draw the
service time (ZeroDivisionError when `service_rate = 0`), record it, add the
entire drawn service time to `cashier_busy_time` before the service even
begins, and suspend on `timeout(service_time)` (ValueError when the drawn
value was negative, i.e. when `service_rate < 0`).  `service_times` is a real
field of the hyphen variant and ghost trace data for the underscore one. -/
def custServiceDraw (cfg : SimConfig) (s : SimState) (pid : ℕ) :
    Except SimError SimState :=
  match expovariate cfg.service_rate (cfg.draws s.drawIdx) with
  | .error err => .error err
  | .ok st =>
    timeout { s with drawIdx := s.drawIdx + 1,
                     service_times := s.service_times ++ [st],
                     cashier_busy_time := s.cashier_busy_time + st }
      st (.custDone pid)

/-- Resumption of `customer_service` once its request event is delivered:
compute and record the wait time (the hyphen variant additionally records the
service start time), then run `custServiceDraw`. -/
def custGrantedStep (cfg : SimConfig) (s : SimState) (pid : ℕ) :
    Except SimError SimState :=
  custServiceDraw cfg
    (if cfg.variantH then
      { s with waiting_times :=
                 s.waiting_times ++ [s.now - lookupArrival s.arrival_times pid],
               service_start_times := s.service_start_times ++ [s.now] }
     else
      { s with waiting_times :=
                 s.waiting_times ++ [s.now - lookupArrival s.arrival_times pid] })
    pid

/-- Resumption of `customer_service` after the service timeout: leaving the
`with` block releases the cashier — `_do_get` removes the request from the
holder list synchronously and the success of the `Release` event is scheduled
at the current time; the customer process terminates. -/
def custDoneStep (s : SimState) (pid : ℕ) : SimState :=
  appendEvent { s with users := s.users.erase pid } s.now rankNormal
    (.releaseDone pid)

/-- Result of delivering one event. -/
inductive StepRes where
  | next (s : SimState)
  | stopped (s : SimState)
  | error (e : SimError)
deriving DecidableEq

def toStep : Except SimError SimState → StepRes
  | .ok s => .next s
  | .error e => .error e

/-- Deliver an event: the clock advances to the event's scheduled time, the
event leaves the queue, and the ghost trace records it. -/
def deliverState (s : SimState) (e : Ev) (rest : List Ev) : SimState :=
  { s with now := e.time, events := rest, delivered := s.delivered ++ [e] }

/-- One iteration of SimPy's `Environment.step` inside
`run(until=simulation_duration)`: pop the earliest pending event, advance the
clock to its time, and run the resumption it drives.  Delivering the `until`
marker raises `StopSimulation`, ending the run with the clock at the horizon;
an empty queue would raise SimPy's empty-schedule error. -/
def step (cfg : SimConfig) (s : SimState) : StepRes :=
  match popMin s.events with
  | none => .error .emptySchedule
  | some (e, rest) =>
    let s1 : SimState := deliverState s e rest
    match e.proc with
    | .untilEvt => .stopped s1
    | .arrivalStart => toStep (arrivalStartStep cfg s1)
    | .arrivalWake => toStep (arrivalWakeStep cfg s1)
    | .monitorWake => toStep (monitorStep cfg s1)
    | .custStart pid => .next (custStartStep s1 pid)
    | .custGranted pid => toStep (custGrantedStep cfg s1 pid)
    | .custDone pid => .next (custDoneStep s1 pid)
    | .releaseDone _ => .next (triggerPut s1)

/-- Outcome of a fuelled run of the scheduler loop. -/
inductive RunOutcome where
  | done (s : SimState)
  | fuelOut (s : SimState)
  | error (e : SimError)
deriving DecidableEq

def runLoop (cfg : SimConfig) : ℕ → SimState → RunOutcome
  | 0, s => .fuelOut s
  | n + 1, s =>
    match step cfg s with
    | .next s1 => runLoop cfg n s1
    | .stopped s1 => .done s1
    | .error e => .error e

/-- The state of a fresh `SupermarketCheckout(env, ...)` after
`env.run(until=simulation_duration)` has scheduled its stop marker: clock at
0, the `Initialize` events of `customer_arrivals` (event id 0) and
`monitor_queue` (event id 1) pending at time 0, the `until` marker pending at
the horizon (event id 2, URGENT), and every statistic empty or zero.
`startIdx` is the read position in the shared random stream (the runs of
`run_multiple_simulations` all consume Python's single global `random`). -/
def initState (simulation_duration : ℚ) (startIdx : ℕ) : SimState :=
  { now := 0,
    events := [⟨0, rankUrgent, 0, .arrivalStart⟩,
               ⟨0, rankUrgent, 1, .monitorWake⟩,
               ⟨simulation_duration, rankUrgent, 2, .untilEvt⟩],
    nextEid := 3, nextPid := 0, drawIdx := startIdx,
    arrival_times := [], waiting_times := [], queue_lengths := [],
    queue_length_times := [], cashier_busy_time := 0, max_queue_length := 0,
    users := [], put_queue := [], service_times := [],
    service_start_times := [], requested := [], granted := [],
    delivered := [] }

def runSim (cfg : SimConfig) (fuel : ℕ) (startIdx : ℕ) : RunOutcome :=
  runLoop cfg fuel (initState cfg.simulation_duration startIdx)

/-- The summary dictionary returned by `get_statistics`.  `max_queue_length`
and `total_customers` are integers in Python; they are carried as rationals
because `run_multiple_simulations` averages them. -/
structure Summary where
  avg_waiting_time : ℚ
  cashier_utilization : ℚ
  max_queue_length : ℚ
  avg_queue_length : ℚ
  total_customers : ℚ
deriving DecidableEq

/-- `statistics.mean` / `np.mean` on a list known to be nonempty. -/
def listMean (l : List ℚ) : ℚ := l.sum / (l.length : ℚ)

/-- `get_statistics` of the underscore variant: guarded plain means for the
waiting times and the queue-length samples, and
`cashier_busy_time / max(env.now, 1)` for the utilization. -/
def u_get_statistics (s : SimState) : Summary :=
  { avg_waiting_time := if s.waiting_times = [] then 0
      else listMean s.waiting_times,
    cashier_utilization := s.cashier_busy_time / max s.now 1,
    max_queue_length := (s.max_queue_length : ℚ),
    avg_queue_length := if s.queue_lengths = [] then 0
      else listMean (s.queue_lengths.map fun n => (n : ℚ)),
    total_customers := (s.waiting_times.length : ℚ) }

/-- `np.diff`: successive differences. -/
def npDiff (l : List ℚ) : List ℚ :=
  (l.zip l.tail).map fun p => p.2 - p.1

/-- `np.average(a, weights=w)`: numpy raises when the two one-dimensional
arrays have different lengths, and ZeroDivisionError when the weights sum to
zero; otherwise the weighted mean. -/
def npAverage (a : List ℚ) (w : List ℚ) : Except SimError ℚ :=
  if a.length ≠ w.length then .error .shapeMismatch
  else if w.sum = 0 then .error .zeroDivision
  else .ok (((a.zip w).map fun p => p.1 * p.2).sum / w.sum)

/-- `get_statistics` of the hyphen variant: the "time-weighted" average queue
length pads the sample times with the horizon, takes `np.diff`, and calls
`np.average` on the samples with the **last sample dropped** (`[:-1]`) —
leaving one more weight than value whenever any sample exists. -/
def h_get_statistics (cfg : SimConfig) (s : SimState) :
    Except SimError Summary :=
  let time_intervals := npDiff (s.queue_length_times ++ [cfg.simulation_duration])
  match (if s.queue_lengths = [] then Except.ok (0 : ℚ)
         else npAverage ((s.queue_lengths.map fun n => (n : ℚ)).dropLast)
           time_intervals) with
  | .error e => .error e
  | .ok avg_q =>
    .ok { avg_waiting_time := if s.waiting_times = [] then 0
            else listMean s.waiting_times,
          cashier_utilization := s.cashier_busy_time / max s.now 1,
          max_queue_length := (s.max_queue_length : ℚ),
          avg_queue_length := avg_q,
          total_customers := (s.waiting_times.length : ℚ) }

/-- `run_simulation(arrival_rate, service_rate, simulation_duration)`: build
a fresh environment and checkout object, run to the horizon, and return
`get_statistics()` together with the position reached in the shared random
stream.  Python exceptions propagate out as `.error`. -/
def run_simulation (cfg : SimConfig) (fuel : ℕ) (startIdx : ℕ) :
    Except SimError (Summary × ℕ) :=
  match runSim cfg fuel startIdx with
  | .done s =>
    match (if cfg.variantH then h_get_statistics cfg s
           else .ok (u_get_statistics s)) with
    | .error e => .error e
    | .ok stats => .ok (stats, s.drawIdx)
  | .fuelOut _ => .error .fuelExhausted
  | .error e => .error e

/-- `statistics.mean` of the underscore variant's
`run_multiple_simulations`: raises `StatisticsError` on empty data. -/
def meanExc (l : List ℚ) : Except SimError ℚ :=
  if l = [] then .error .statisticsError else .ok (l.sum / (l.length : ℚ))

def mkCfg (variantH : Bool) (draws : ℕ → ℚ)
    (arrival_rate service_rate simulation_duration : ℚ) : SimConfig :=
  { variantH := variantH, draws := draws, arrival_rate := arrival_rate,
    service_rate := service_rate, simulation_duration := simulation_duration }

/-- `run_stats = [run_simulation(...) for _ in range(num_runs)]`: the
`num_runs` consecutive single-run summaries for one arrival rate, threading
the read position of the shared random stream. -/
def runStats (variantH : Bool) (draws : ℕ → ℚ) (fuel : ℕ)
    (arrival_rate service_rate simulation_duration : ℚ) :
    ℕ → ℕ → Except SimError (List Summary × ℕ)
  | 0, idx => .ok ([], idx)
  | n + 1, idx =>
    match run_simulation
        (mkCfg variantH draws arrival_rate service_rate simulation_duration)
        fuel idx with
    | .error e => .error e
    | .ok (st, idx1) =>
      match runStats variantH draws fuel arrival_rate service_rate
          simulation_duration n idx1 with
      | .error e => .error e
      | .ok (rest, idx2) => .ok (st :: rest, idx2)

/-- One averaged row of `run_multiple_simulations`. -/
structure MultiSummary where
  arrival_rate : ℚ
  service_rate : ℚ
  avg_waiting_time : ℚ
  cashier_utilization : ℚ
  max_queue_length : ℚ
  avg_queue_length : ℚ
  total_customers : ℚ
deriving DecidableEq

/-- Body of the `for arrival_rate in arrival_rates:` loop of the underscore
variant's `run_multiple_simulations`: run the batch for the rate, average
each summary field with `statistics.mean`, append the row, and continue with
the remaining rates. -/
def run_multiple_aux (variantH : Bool) (draws : ℕ → ℚ) (fuel : ℕ)
    (service_rate simulation_duration : ℚ) (num_runs : ℕ) :
    List ℚ → ℕ → Except SimError (List MultiSummary)
  | [], _ => .ok []
  | rate :: rs, idx =>
    match runStats variantH draws fuel rate service_rate simulation_duration
        num_runs idx with
    | .error e => .error e
    | .ok (stats, idx1) =>
      match meanExc (stats.map (·.avg_waiting_time)) with
      | .error e => .error e
      | .ok m1 =>
        match meanExc (stats.map (·.cashier_utilization)) with
        | .error e => .error e
        | .ok m2 =>
          match meanExc (stats.map (·.max_queue_length)) with
          | .error e => .error e
          | .ok m3 =>
            match meanExc (stats.map (·.avg_queue_length)) with
            | .error e => .error e
            | .ok m4 =>
              match meanExc (stats.map (·.total_customers)) with
              | .error e => .error e
              | .ok m5 =>
                match run_multiple_aux variantH draws fuel service_rate
                    simulation_duration num_runs rs idx1 with
                | .error e => .error e
                | .ok rest =>
                  .ok ({ arrival_rate := rate, service_rate := service_rate,
                         avg_waiting_time := m1, cashier_utilization := m2,
                         max_queue_length := m3, avg_queue_length := m4,
                         total_customers := m5 } :: rest)

/-- `run_multiple_simulations(arrival_rates, service_rate,
simulation_duration, num_runs)` of the underscore variant. -/
def run_multiple_simulations (variantH : Bool) (draws : ℕ → ℚ) (fuel : ℕ)
    (arrival_rates : List ℚ) (service_rate simulation_duration : ℚ)
    (num_runs : ℕ) : Except SimError (List MultiSummary) :=
  run_multiple_aux variantH draws fuel service_rate simulation_duration
    num_runs arrival_rates 0

/-- The time-weighted average queue length as the specification defines it:
each sample is weighted by the time elapsed until the next sample, the last
sample's weight extending to the horizon. -/
def specTimeWeightedAvg (qs : List ℕ) (ts : List ℚ) (dur : ℚ) : ℚ :=
  let ws := npDiff (ts ++ [dur])
  (((qs.map fun n => (n : ℚ)).zip ws).map fun p => p.1 * p.2).sum / ws.sum

/-- The all-zero summary that the zero-arrival-rate policy must produce. -/
def zeroSummary : Summary :=
  { avg_waiting_time := 0, cashier_utilization := 0, max_queue_length := 0,
    avg_queue_length := 0, total_customers := 0 }

/-- Final state of a completed run, for stating concrete evaluations. -/
def runFinal (cfg : SimConfig) (fuel : ℕ) (startIdx : ℕ) : Option SimState :=
  match runSim cfg fuel startIdx with
  | .done s => some s
  | _ => none

/-- Unit-exponential draws producing two arrivals at 1/100 and 2/100, a
service of 2 minutes for the first customer, and no further event inside a
short horizon. -/
def dwsA : ℕ → ℚ := fun n => [1/100, 1/100, 2].getD n 10

/-- Underscore variant, arrival rate 1, service rate 1, horizon 1/4:
the run samples queue lengths 0, 1, 1 at times 0, 1/10, 1/5. -/
def cfgA : SimConfig := mkCfg false dwsA 1 1 (1/4)

/-- The hyphen variant on the same failing input. -/
def cfgAH : SimConfig := mkCfg true dwsA 1 1 (1/4)

/-- Unit-exponential draws producing one arrival at 1/5 whose drawn service
time is 10 minutes, far beyond a horizon of 1/2. -/
def dwsB : ℕ → ℚ := fun n => [1/5, 10, 10].getD n 10

/-- Underscore variant, arrival rate 1, service rate 1, horizon 1/2: the
only customer's 10-minute service overshoots the horizon, so the reported
busy time is 10 while only 1/2 minute of simulated time elapsed. -/
def cfgB : SimConfig := mkCfg false dwsB 1 1 (1/2)

/-- Hyphen variant called with arrival_rate = 0. -/
def cfgH0 : SimConfig := mkCfg true dwsB 0 1 (1/4)

/-- Underscore variant with a negative service rate. -/
def cfgNeg : SimConfig := mkCfg false dwsB 1 (-1) (1/2)

/-- Underscore variant with service rate exactly 0. -/
def cfgZero : SimConfig := mkCfg false dwsB 1 0 (1/2)

/-- Underscore variant, no arrivals, horizon 1/10: when the run stops, the
monitor's next wake-up is still pending at exactly the horizon. -/
def cfgM : SimConfig := mkCfg false dwsB 0 1 (1/10)

/-- A constant random stream (every unit-exponential draw equals 1). -/
def dwsOne : ℕ → ℚ := fun _ => 1

/-- Underscore variant, arrival rate 1, service rate 1, horizon 1, constant
draws: a small run that completes, used to instantiate the universally
quantified theorems. -/
def cfgW : SimConfig := mkCfg false dwsOne 1 1 1

/-- Underscore variant with arrival rate 0 on the constant stream. -/
def cfgW0 : SimConfig := mkCfg false dwsOne 0 1 (1/4)

/-- Underscore variant with service rate 0 on the constant stream. -/
def cfgWS0 : SimConfig := mkCfg false dwsOne 1 0 2

/-- The completed final state of the `cfgW` run. -/
def doneW : SimState := (runFinal cfgW 60 0).getD (initState 0 0)

/-- The completed final state of the `cfgW0` run. -/
def doneW0 : SimState := (runFinal cfgW0 60 0).getD (initState 0 0)

/-- The completed final state of the `cfgM` run. -/
def doneM : SimState := (runFinal cfgM 60 0).getD (initState 0 0)

/-- The completed final state of the `cfgA` run. -/
def doneA : SimState := (runFinal cfgA 60 0).getD (initState 0 0)

/-- The completed final state of the `cfgB` run. -/
def doneB : SimState := (runFinal cfgB 60 0).getD (initState 0 0)

/-- The single averaged row produced by
`run_multiple_simulations false dwsOne 60 [0] 1 (1/4) 1`. -/
def c9row : MultiSummary :=
  { arrival_rate := 0, service_rate := 1, avg_waiting_time := 0,
    cashier_utilization := 0, max_queue_length := 0, avg_queue_length := 0,
    total_customers := 0 }

/-! ### Invariant predicates used by the theorems below -/

/-- At most one holder, and the request trace is the grant trace followed by
the FIFO wait queue (so requests are granted strictly in request order). -/
def InvRes (s : SimState) : Prop :=
  s.users.length ≤ 1 ∧ s.requested = s.granted ++ s.put_queue

/-- The busy-time accumulator always equals the sum of the full drawn service
times of the customers granted the cashier so far. -/
def InvBusy (s : SimState) : Prop :=
  s.cashier_busy_time = s.service_times.sum

/-- Pending events never lie before the clock; every pending `untilEvt`
event sits exactly at the horizon; the `untilEvt` stop marker is still
pending; and every event delivered so far was scheduled at or before the
horizon. -/
def InvClock (cfg : SimConfig) (s : SimState) : Prop :=
  (∀ e ∈ s.events, s.now ≤ e.time) ∧
  (∀ e ∈ s.events, e.proc = .untilEvt → e.time = cfg.simulation_duration) ∧
  (∃ e ∈ s.events, e.proc = .untilEvt) ∧
  (∀ e ∈ s.delivered, e.time ≤ cfg.simulation_duration)

/-- Every recorded drawn service time is nonnegative (when the service rate
is positive and the exponential source produces nonnegative values). -/
def InvServNonneg (s : SimState) : Prop := ∀ x ∈ s.service_times, 0 ≤ x

/-- The `untilEvt` stop marker is still pending. -/
def UntilMem (s : SimState) : Prop := ∃ e ∈ s.events, e.proc = .untilEvt

/-- State invariant of a zero-arrival-rate underscore-variant run: only the
arrival initialisation, the monitor and the stop marker are ever pending,
the resource wait queue is empty, no waiting time or busy time or queue
length was ever recorded except zero-length samples. -/
def InvZero (s : SimState) : Prop :=
  UntilMem s ∧
  (∀ e ∈ s.events, e.proc = .arrivalStart ∨ e.proc = .monitorWake ∨
    e.proc = .untilEvt) ∧
  s.waiting_times = [] ∧ s.cashier_busy_time = 0 ∧ s.max_queue_length = 0 ∧
  (∀ q ∈ s.queue_lengths, q = 0) ∧ s.put_queue = []

/-- Invariant of an underscore-variant run with service_rate = 0: the stop
marker is pending and no waiting time was ever recorded — the recording and
the failing draw sit in the same atomic segment of `customer_service`, so a
customer reaching the draw kills the run before any state with a recorded
wait becomes observable. -/
def InvNoServe (s : SimState) : Prop := UntilMem s ∧ s.waiting_times = []


/-! ### Properties of the event-queue order and `popMin` -/

theorem evLe_iff {a b : Ev} : evLe a b = true ↔
    (a.time < b.time ∨ (a.time = b.time ∧
      (a.rank < b.rank ∨ (a.rank = b.rank ∧ a.eid ≤ b.eid)))) := by
  simp [evLe]

theorem evLe_refl (a : Ev) : evLe a a = true := by
  rw [evLe_iff]; exact Or.inr ⟨rfl, Or.inr ⟨rfl, le_refl _⟩⟩

theorem evLe_trans {a b c : Ev} (h1 : evLe a b = true)
    (h2 : evLe b c = true) : evLe a c = true := by
  rw [evLe_iff] at h1 h2 ⊢
  rcases h1 with h1 | ⟨e1, h1⟩ <;> rcases h2 with h2 | ⟨e2, h2⟩
  · exact Or.inl (h1.trans h2)
  · exact Or.inl (e2 ▸ h1)
  · exact Or.inl (e1 ▸ h2)
  · refine Or.inr ⟨e1.trans e2, ?_⟩
    rcases h1 with h1 | ⟨f1, h1⟩ <;> rcases h2 with h2 | ⟨f2, h2⟩
    · exact Or.inl (h1.trans h2)
    · exact Or.inl (f2 ▸ h1)
    · exact Or.inl (f1 ▸ h2)
    · exact Or.inr ⟨f1.trans f2, h1.trans h2⟩

theorem evLe_total (a b : Ev) : evLe a b = true ∨ evLe b a = true := by
  rw [evLe_iff, evLe_iff]
  rcases lt_trichotomy a.time b.time with h | h | h
  · exact Or.inl (Or.inl h)
  · rcases lt_trichotomy a.rank b.rank with g | g | g
    · exact Or.inl (Or.inr ⟨h, Or.inl g⟩)
    · rcases le_total a.eid b.eid with k | k
      · exact Or.inl (Or.inr ⟨h, Or.inr ⟨g, k⟩⟩)
      · exact Or.inr (Or.inr ⟨h.symm, Or.inr ⟨g.symm, k⟩⟩)
    · exact Or.inr (Or.inr ⟨h.symm, Or.inl g⟩)
  · exact Or.inr (Or.inl h)

theorem evLe_time {a b : Ev} (h : evLe a b = true) : a.time ≤ b.time := by
  rw [evLe_iff] at h
  rcases h with h | ⟨h, _⟩
  · exact le_of_lt h
  · exact le_of_eq h

theorem popMin_cons_ne_none (x : Ev) (xs : List Ev) :
    popMin (x :: xs) ≠ none := by
  simp only [popMin]
  rcases h : popMin xs with _ | ⟨m, r⟩
  · simp
  · by_cases hc : evLe x m <;> simp [hc]

theorem popMin_perm : ∀ {l : List Ev} {e : Ev} {rest : List Ev},
    popMin l = some (e, rest) → l.Perm (e :: rest) := by
  intro l
  induction l with
  | nil => intro e rest h; simp [popMin] at h
  | cons x xs ih =>
    intro e rest h
    simp only [popMin] at h
    rcases hm : popMin xs with _ | ⟨m, r⟩ <;> rw [hm] at h
    · simp only [Option.some.injEq, Prod.mk.injEq] at h
      obtain ⟨rfl, rfl⟩ := h
      have hxs : xs = [] := by
        cases xs with
        | nil => rfl
        | cons z zs => exact absurd hm (popMin_cons_ne_none z zs)
      subst hxs
      exact List.Perm.refl _
    · by_cases hle : evLe x m <;> simp only [hle, if_true, if_false,
        Bool.false_eq_true, Option.some.injEq, Prod.mk.injEq] at h
      · obtain ⟨rfl, rfl⟩ := h
        exact List.Perm.refl _
      · obtain ⟨rfl, rfl⟩ := h
        exact ((ih hm).cons x).trans (List.Perm.swap _ _ _)

theorem popMin_mem {l : List Ev} {e : Ev} {rest : List Ev}
    (h : popMin l = some (e, rest)) : e ∈ l :=
  (popMin_perm h).mem_iff.2 (List.mem_cons_self _ _)

theorem popMin_rest_mem {l : List Ev} {e : Ev} {rest : List Ev}
    (h : popMin l = some (e, rest)) {x : Ev} (hx : x ∈ rest) : x ∈ l :=
  (popMin_perm h).mem_iff.2 (List.mem_cons_of_mem _ hx)

theorem popMin_mem_split {l : List Ev} {e : Ev} {rest : List Ev}
    (h : popMin l = some (e, rest)) {x : Ev} (hx : x ∈ l) :
    x = e ∨ x ∈ rest := by
  have := (popMin_perm h).mem_iff.1 hx
  simpa using this

theorem popMin_min : ∀ {l : List Ev} {e : Ev} {rest : List Ev},
    popMin l = some (e, rest) → ∀ x ∈ l, evLe e x = true := by
  intro l
  induction l with
  | nil => intro e rest h; simp [popMin] at h
  | cons y xs ih =>
    intro e rest h x hx
    simp only [popMin] at h
    rcases hm : popMin xs with _ | ⟨m, r⟩ <;> rw [hm] at h
    · simp only [Option.some.injEq, Prod.mk.injEq] at h
      obtain ⟨rfl, rfl⟩ := h
      have hxs : xs = [] := by
        cases xs with
        | nil => rfl
        | cons z zs => exact absurd hm (popMin_cons_ne_none z zs)
      subst hxs
      rcases List.mem_cons.1 hx with hx | hx
      · rw [hx]; exact evLe_refl _
      · simp at hx
    · by_cases hle : evLe y m <;> simp only [hle, if_true, if_false,
        Bool.false_eq_true, Option.some.injEq, Prod.mk.injEq] at h
      · obtain ⟨rfl, rfl⟩ := h
        rcases List.mem_cons.1 hx with hx | hx
        · rw [hx]; exact evLe_refl _
        · exact evLe_trans hle (ih hm x hx)
      · obtain ⟨rfl, rfl⟩ := h
        rcases List.mem_cons.1 hx with hx | hx
        · rcases evLe_total y m with ht | ht
          · exact absurd ht hle
          · rw [hx]; exact ht
        · exact ih hm x hx

/-! ### A generic induction principle for the scheduler loop -/

theorem runLoop_rect (cfg : SimConfig) (P Q : SimState → Prop)
    (E : SimError → Prop)
    (hn : ∀ s s1, P s → step cfg s = .next s1 → P s1)
    (hs : ∀ s s1, P s → step cfg s = .stopped s1 → Q s1)
    (he : ∀ s e, P s → step cfg s = .error e → E e) :
    ∀ (n : ℕ) (s : SimState), P s →
      (∀ s1, runLoop cfg n s = .done s1 → Q s1) ∧
      (∀ s1, runLoop cfg n s = .fuelOut s1 → P s1) ∧
      (∀ e, runLoop cfg n s = .error e → E e) := by
  intro n
  induction n with
  | zero =>
    intro s hP
    refine ⟨?_, ?_, ?_⟩
    · intro s1 h; exact absurd h (by simp [runLoop])
    · intro s1 h
      simp only [runLoop, RunOutcome.fuelOut.injEq] at h
      exact h ▸ hP
    · intro e h; exact absurd h (by simp [runLoop])
  | succ n ih =>
    intro s hP
    rcases hst : step cfg s with s1 | s1 | e
    · have hrun : runLoop cfg (n + 1) s = runLoop cfg n s1 := by
        simp [runLoop, hst]
      obtain ⟨a, b, c⟩ := ih s1 (hn s s1 hP hst)
      exact ⟨fun s2 h => a s2 (hrun ▸ h), fun s2 h => b s2 (hrun ▸ h),
        fun e h => c e (hrun ▸ h)⟩
    · have hrun : runLoop cfg (n + 1) s = .done s1 := by
        simp [runLoop, hst]
      refine ⟨?_, ?_, ?_⟩
      · intro s2 h
        rw [hrun, RunOutcome.done.injEq] at h
        exact h ▸ hs s s1 hP hst
      · intro s2 h; rw [hrun] at h; exact absurd h (by simp)
      · intro e h; rw [hrun] at h; exact absurd h (by simp)
    · have hrun : runLoop cfg (n + 1) s = .error e := by
        simp [runLoop, hst]
      refine ⟨?_, ?_, ?_⟩
      · intro s2 h; rw [hrun] at h; exact absurd h (by simp)
      · intro s2 h; rw [hrun] at h; exact absurd h (by simp)
      · intro e1 h
        rw [hrun, RunOutcome.error.injEq] at h
        exact h ▸ he s e hP hst

/-! ### Case analysis on one scheduler step -/

theorem toStep_next {x : Except SimError SimState} {s1 : SimState} :
    toStep x = .next s1 ↔ x = .ok s1 := by
  cases x <;> simp [toStep]

theorem toStep_not_stopped {x : Except SimError SimState} {s1 : SimState} :
    ¬ toStep x = .stopped s1 := by
  cases x <;> simp [toStep]

theorem toStep_err {x : Except SimError SimState} {e : SimError} :
    toStep x = .error e ↔ x = .error e := by
  cases x <;> simp [toStep]

theorem timeout_ok {s : SimState} {d : ℚ} {p : Proc} {s1 : SimState}
    (h : timeout s d p = .ok s1) :
    s1 = appendEvent s (s.now + d) rankNormal p ∧ 0 ≤ d := by
  unfold timeout at h
  split at h
  · simp at h
  · next hd =>
    simp only [Except.ok.injEq] at h
    exact ⟨h.symm, not_lt.1 hd⟩

theorem step_cases {cfg : SimConfig} {s : SimState} {r : StepRes}
    (hstep : step cfg s = r) :
    (popMin s.events = none ∧ r = .error .emptySchedule) ∨
    (∃ e rest, popMin s.events = some (e, rest) ∧
      ((e.proc = .untilEvt ∧ r = .stopped (deliverState s e rest)) ∨
       (e.proc = .arrivalStart ∧
         r = toStep (arrivalStartStep cfg (deliverState s e rest))) ∨
       (e.proc = .arrivalWake ∧
         r = toStep (arrivalWakeStep cfg (deliverState s e rest))) ∨
       (e.proc = .monitorWake ∧
         r = toStep (monitorStep cfg (deliverState s e rest))) ∨
       (∃ pid, e.proc = .custStart pid ∧
         r = .next (custStartStep (deliverState s e rest) pid)) ∨
       (∃ pid, e.proc = .custGranted pid ∧
         r = toStep (custGrantedStep cfg (deliverState s e rest) pid)) ∨
       (∃ pid, e.proc = .custDone pid ∧
         r = .next (custDoneStep (deliverState s e rest) pid)) ∨
       (∃ pid, e.proc = .releaseDone pid ∧
         r = .next (triggerPut (deliverState s e rest))))) := by
  unfold step at hstep
  rcases hpop : popMin s.events with _ | ⟨e, rest⟩ <;> rw [hpop] at hstep
  · exact Or.inl ⟨rfl, hstep.symm⟩
  · refine Or.inr ⟨e, rest, rfl, ?_⟩
    rcases e with ⟨t, rk, id, pr⟩
    cases pr with
    | arrivalStart => exact Or.inr (Or.inl ⟨rfl, hstep.symm⟩)
    | arrivalWake => exact Or.inr (Or.inr (Or.inl ⟨rfl, hstep.symm⟩))
    | monitorWake => exact Or.inr (Or.inr (Or.inr (Or.inl ⟨rfl, hstep.symm⟩)))
    | custStart pid =>
      exact Or.inr (Or.inr (Or.inr (Or.inr (Or.inl ⟨pid, rfl, hstep.symm⟩))))
    | custGranted pid =>
      exact Or.inr (Or.inr (Or.inr (Or.inr (Or.inr (Or.inl
        ⟨pid, rfl, hstep.symm⟩)))))
    | custDone pid =>
      exact Or.inr (Or.inr (Or.inr (Or.inr (Or.inr (Or.inr (Or.inl
        ⟨pid, rfl, hstep.symm⟩))))))
    | releaseDone pid =>
      exact Or.inr (Or.inr (Or.inr (Or.inr (Or.inr (Or.inr (Or.inr
        ⟨pid, rfl, hstep.symm⟩))))))
    | untilEvt => exact Or.inl ⟨rfl, hstep.symm⟩

theorem step_stopped_elim {cfg : SimConfig} {s s1 : SimState}
    (hstep : step cfg s = .stopped s1) :
    ∃ e rest, popMin s.events = some (e, rest) ∧ e.proc = .untilEvt ∧
      s1 = deliverState s e rest := by
  rcases step_cases hstep with ⟨-, heq⟩ | ⟨e, rest, hpop, hcase⟩
  · simp at heq
  · rcases hcase with ⟨hp, heq⟩ | ⟨hp, heq⟩ | ⟨hp, heq⟩ | ⟨hp, heq⟩ |
      ⟨pid, hp, heq⟩ | ⟨pid, hp, heq⟩ | ⟨pid, hp, heq⟩ | ⟨pid, hp, heq⟩
    · refine ⟨e, rest, hpop, hp, ?_⟩
      injection heq with h
    · exact absurd heq.symm toStep_not_stopped
    · exact absurd heq.symm toStep_not_stopped
    · exact absurd heq.symm toStep_not_stopped
    · simp at heq
    · exact absurd heq.symm toStep_not_stopped
    · simp at heq
    · simp at heq

/-! ### The resource invariant (claim C6) -/

theorem invRes_triggerPut {s : SimState} (h : InvRes s) :
    InvRes (triggerPut s) := by
  obtain ⟨h1, h2⟩ := h
  unfold triggerPut
  split
  · next hlen =>
    split
    · exact ⟨h1, h2⟩
    · next pid rest heq =>
      refine ⟨?_, ?_⟩
      · show (s.users ++ [pid]).length ≤ 1
        simp only [List.length_append, List.length_cons, List.length_nil]
        omega
      · show s.requested = (s.granted ++ [pid]) ++ rest
        rw [h2, heq, List.append_assoc]
        rfl
  · exact ⟨h1, h2⟩

theorem invRes_uArrival {cfg : SimConfig} {s s1 : SimState} (h : InvRes s)
    (hu : uArrivalLoop cfg s = .ok s1) : InvRes s1 := by
  unfold uArrivalLoop at hu
  split at hu
  · split at hu
    · split at hu
      · simp at hu
      · obtain ⟨rfl, -⟩ := timeout_ok hu
        exact h
    · simp only [Except.ok.injEq] at hu
      exact hu ▸ h
  · simp only [Except.ok.injEq] at hu
    exact hu ▸ h

theorem invRes_hArrival {cfg : SimConfig} {s s1 : SimState} (h : InvRes s)
    (hu : hArrivalLoop cfg s = .ok s1) : InvRes s1 := by
  unfold hArrivalLoop at hu
  split at hu
  · simp at hu
  · obtain ⟨rfl, -⟩ := timeout_ok hu
    exact h

theorem invRes_arrivalStart {cfg : SimConfig} {s s1 : SimState} (h : InvRes s)
    (hu : arrivalStartStep cfg s = .ok s1) : InvRes s1 := by
  unfold arrivalStartStep at hu
  split at hu
  · exact invRes_hArrival h hu
  · exact invRes_uArrival h hu

theorem invRes_arrivalWake {cfg : SimConfig} {s s1 : SimState} (h : InvRes s)
    (hu : arrivalWakeStep cfg s = .ok s1) : InvRes s1 := by
  unfold arrivalWakeStep at hu
  split at hu
  · split at hu
    · simp only [Except.ok.injEq] at hu
      exact hu ▸ h
    · exact invRes_hArrival (show InvRes (spawnCustomer s) from h) hu
  · exact invRes_uArrival (show InvRes (spawnCustomer s) from h) hu

theorem invRes_monitor {cfg : SimConfig} {s s1 : SimState} (h : InvRes s)
    (hu : monitorStep cfg s = .ok s1) : InvRes s1 := by
  unfold monitorStep at hu
  split at hu
  · obtain ⟨rfl, -⟩ := timeout_ok hu
    exact h
  · simp only [Except.ok.injEq] at hu
    exact hu ▸ h

theorem invRes_custStart {s : SimState} {pid : ℕ} (h : InvRes s) :
    InvRes (custStartStep s pid) := by
  refine invRes_triggerPut ⟨h.1, ?_⟩
  show s.requested ++ [pid] = s.granted ++ (s.put_queue ++ [pid])
  rw [h.2, List.append_assoc]

theorem invRes_custServiceDraw {cfg : SimConfig} {s s1 : SimState} {pid : ℕ}
    (h : InvRes s) (hu : custServiceDraw cfg s pid = .ok s1) : InvRes s1 := by
  unfold custServiceDraw at hu
  split at hu
  · simp at hu
  · obtain ⟨rfl, -⟩ := timeout_ok hu
    exact h

theorem invRes_custGranted {cfg : SimConfig} {s s1 : SimState} {pid : ℕ}
    (h : InvRes s) (hu : custGrantedStep cfg s pid = .ok s1) : InvRes s1 := by
  unfold custGrantedStep at hu
  exact invRes_custServiceDraw (by split <;> exact h) hu

theorem invRes_custDone {s : SimState} {pid : ℕ} (h : InvRes s) :
    InvRes (custDoneStep s pid) := by
  refine ⟨?_, h.2⟩
  show (s.users.erase pid).length ≤ 1
  exact le_trans (List.length_erase_le _ _) h.1

theorem invRes_step_next {cfg : SimConfig} {s s1 : SimState} (h : InvRes s)
    (hstep : step cfg s = .next s1) : InvRes s1 := by
  rcases step_cases hstep with ⟨-, heq⟩ | ⟨e, rest, hpop, hcase⟩
  · simp at heq
  · have hb : InvRes (deliverState s e rest) := h
    rcases hcase with ⟨hp, heq⟩ | ⟨hp, heq⟩ | ⟨hp, heq⟩ | ⟨hp, heq⟩ |
      ⟨pid, hp, heq⟩ | ⟨pid, hp, heq⟩ | ⟨pid, hp, heq⟩ | ⟨pid, hp, heq⟩
    · simp at heq
    · rw [Eq.comm, toStep_next] at heq
      exact invRes_arrivalStart hb heq
    · rw [Eq.comm, toStep_next] at heq
      exact invRes_arrivalWake hb heq
    · rw [Eq.comm, toStep_next] at heq
      exact invRes_monitor hb heq
    · injection heq with heq
      rw [heq]
      exact invRes_custStart hb
    · rw [Eq.comm, toStep_next] at heq
      exact invRes_custGranted hb heq
    · injection heq with heq
      rw [heq]
      exact invRes_custDone hb
    · injection heq with heq
      rw [heq]
      exact invRes_triggerPut hb

theorem invRes_run (cfg : SimConfig) (fuel idx : ℕ) :
    (∀ s, runSim cfg fuel idx = .done s → InvRes s) ∧
    (∀ s, runSim cfg fuel idx = .fuelOut s → InvRes s) := by
  have h0 : InvRes (initState cfg.simulation_duration idx) :=
    ⟨by simp [initState], rfl⟩
  obtain ⟨a, b, c⟩ := runLoop_rect cfg InvRes InvRes (fun _ => True)
    (fun s s1 hP hstep => invRes_step_next hP hstep)
    (fun s s1 hP hstep => by
      obtain ⟨e, rest, hpop, hproc, rfl⟩ := step_stopped_elim hstep
      exact hP)
    (fun _ _ _ _ => trivial)
    fuel (initState cfg.simulation_duration idx) h0
  exact ⟨a, b⟩

/-- Claim C6: in every reachable state of every simulation run, the cashier
resource has at most one holder, and requests are granted strictly in FIFO
request order — the ghost trace of requests always equals the trace of grants
so far followed by the still-waiting queue, which says the sequence of grants
is exactly the request sequence with no reordering or skipping, the front
request being promoted when the holder releases. -/
theorem c6_cashier_exclusive_and_fifo (cfg : SimConfig) (fuel idx : ℕ)
    (s : SimState)
    (h : runSim cfg fuel idx = .done s ∨ runSim cfg fuel idx = .fuelOut s) :
    s.users.length ≤ 1 ∧ s.requested = s.granted ++ s.put_queue := by
  rcases h with h | h
  · exact (invRes_run cfg fuel idx).1 s h
  · exact (invRes_run cfg fuel idx).2 s h

theorem c6_cashier_exclusive_and_fifo_witness :
    doneA.users.length ≤ 1 ∧ doneA.requested = doneA.granted ++ doneA.put_queue :=
  c6_cashier_exclusive_and_fifo cfgA 60 0 doneA (Or.inl (by with_unfolding_all rfl))

/-! ### Shape lemmas for the non-resource handlers -/

theorem uArrival_ok_cases {cfg : SimConfig} {s s1 : SimState}
    (hu : uArrivalLoop cfg s = .ok s1) :
    s1 = s ∨ ∃ d : ℚ, 0 ≤ d ∧
      s1 = appendEvent { s with drawIdx := s.drawIdx + 1 } (s.now + d)
        rankNormal .arrivalWake := by
  unfold uArrivalLoop at hu
  split at hu
  · split at hu
    · split at hu
      · simp at hu
      · obtain ⟨heq, hd⟩ := timeout_ok hu
        exact Or.inr ⟨_, hd, heq⟩
    · simp only [Except.ok.injEq] at hu
      exact Or.inl hu.symm
  · simp only [Except.ok.injEq] at hu
    exact Or.inl hu.symm

theorem hArrival_ok_cases {cfg : SimConfig} {s s1 : SimState}
    (hu : hArrivalLoop cfg s = .ok s1) :
    ∃ d : ℚ, 0 ≤ d ∧
      s1 = appendEvent { s with drawIdx := s.drawIdx + 1 } (s.now + d)
        rankNormal .arrivalWake := by
  unfold hArrivalLoop at hu
  split at hu
  · simp at hu
  · obtain ⟨heq, hd⟩ := timeout_ok hu
    exact ⟨_, hd, heq⟩

theorem arrivalStart_ok_cases {cfg : SimConfig} {s s1 : SimState}
    (hu : arrivalStartStep cfg s = .ok s1) :
    s1 = s ∨ ∃ d : ℚ, 0 ≤ d ∧
      s1 = appendEvent { s with drawIdx := s.drawIdx + 1 } (s.now + d)
        rankNormal .arrivalWake := by
  unfold arrivalStartStep at hu
  split at hu
  · obtain ⟨d, hd, heq⟩ := hArrival_ok_cases hu
    exact Or.inr ⟨d, hd, heq⟩
  · exact uArrival_ok_cases hu

theorem arrivalWake_ok_cases {cfg : SimConfig} {s s1 : SimState}
    (hu : arrivalWakeStep cfg s = .ok s1) :
    s1 = s ∨ s1 = spawnCustomer s ∨
    ∃ d : ℚ, 0 ≤ d ∧
      s1 = appendEvent { spawnCustomer s with drawIdx := s.drawIdx + 1 }
        (s.now + d) rankNormal .arrivalWake := by
  unfold arrivalWakeStep at hu
  split at hu
  · split at hu
    · simp only [Except.ok.injEq] at hu
      exact Or.inl hu.symm
    · obtain ⟨d, hd, heq⟩ := hArrival_ok_cases hu
      exact Or.inr (Or.inr ⟨d, hd, heq⟩)
  · rcases uArrival_ok_cases hu with heq | ⟨d, hd, heq⟩
    · exact Or.inr (Or.inl heq)
    · exact Or.inr (Or.inr ⟨d, hd, heq⟩)

theorem monitor_ok_cases {cfg : SimConfig} {s s1 : SimState}
    (hu : monitorStep cfg s = .ok s1) :
    (¬ s.now ≤ cfg.simulation_duration ∧ s1 = s) ∨
    (s.now ≤ cfg.simulation_duration ∧
      s1 = appendEvent
        { s with queue_lengths := s.queue_lengths ++ [s.put_queue.length],
                 queue_length_times := s.queue_length_times ++ [s.now],
                 max_queue_length := max s.max_queue_length s.put_queue.length }
        (s.now + 1/10) rankNormal .monitorWake) := by
  unfold monitorStep at hu
  split at hu
  · next hnow =>
    obtain ⟨heq, -⟩ := timeout_ok hu
    exact Or.inr ⟨hnow, heq⟩
  · next hnow =>
    simp only [Except.ok.injEq] at hu
    exact Or.inl ⟨hnow, hu.symm⟩

theorem custServiceDraw_ok_cases {cfg : SimConfig} {s s1 : SimState} {pid : ℕ}
    (hu : custServiceDraw cfg s pid = .ok s1) :
    ∃ st : ℚ, expovariate cfg.service_rate (cfg.draws s.drawIdx) = .ok st ∧
      0 ≤ st ∧
      s1 = appendEvent
        { s with drawIdx := s.drawIdx + 1,
                 service_times := s.service_times ++ [st],
                 cashier_busy_time := s.cashier_busy_time + st }
        (s.now + st) rankNormal (.custDone pid) := by
  unfold custServiceDraw at hu
  split at hu
  · simp at hu
  · next st heq =>
    obtain ⟨h1, h2⟩ := timeout_ok hu
    exact ⟨st, heq, h2, h1⟩

theorem triggerPut_cases (s : SimState) :
    triggerPut s = s ∨
    ∃ pid rest, s.users.length = 0 ∧ s.put_queue = pid :: rest ∧
      triggerPut s = appendEvent
        { s with users := s.users ++ [pid], put_queue := rest,
                 granted := s.granted ++ [pid] }
        s.now rankNormal (.custGranted pid) := by
  unfold triggerPut
  split
  · next hlen =>
    split
    · exact Or.inl rfl
    · next pid rest heq => exact Or.inr ⟨pid, rest, by omega, heq, rfl⟩
  · exact Or.inl rfl

theorem custStart_eq (s : SimState) (pid : ℕ) :
    custStartStep s pid = triggerPut
      { s with arrival_times := s.arrival_times ++ [(pid, s.now)],
               requested := s.requested ++ [pid],
               put_queue := s.put_queue ++ [pid] } := rfl

theorem custDone_eq (s : SimState) (pid : ℕ) :
    custDoneStep s pid = appendEvent { s with users := s.users.erase pid }
      s.now rankNormal (.releaseDone pid) := rfl

/-! ### The busy-time accumulator invariant (claim C10) -/

theorem invBusy_custServiceDraw {cfg : SimConfig} {s s1 : SimState} {pid : ℕ}
    (h : InvBusy s) (hu : custServiceDraw cfg s pid = .ok s1) : InvBusy s1 := by
  obtain ⟨st, -, -, rfl⟩ := custServiceDraw_ok_cases hu
  show s.cashier_busy_time + st = (s.service_times ++ [st]).sum
  rw [List.sum_append, h]
  simp

theorem invBusy_triggerPut {s : SimState} (h : InvBusy s) :
    InvBusy (triggerPut s) := by
  rcases triggerPut_cases s with heq | ⟨pid, rest, -, -, heq⟩ <;> rw [heq] <;>
    exact h

theorem invBusy_step_next {cfg : SimConfig} {s s1 : SimState} (h : InvBusy s)
    (hstep : step cfg s = .next s1) : InvBusy s1 := by
  rcases step_cases hstep with ⟨-, heq⟩ | ⟨e, rest, hpop, hcase⟩
  · simp at heq
  · have hb : InvBusy (deliverState s e rest) := h
    rcases hcase with ⟨hp, heq⟩ | ⟨hp, heq⟩ | ⟨hp, heq⟩ | ⟨hp, heq⟩ |
      ⟨pid, hp, heq⟩ | ⟨pid, hp, heq⟩ | ⟨pid, hp, heq⟩ | ⟨pid, hp, heq⟩
    · simp at heq
    · rw [Eq.comm, toStep_next] at heq
      rcases arrivalStart_ok_cases heq with rfl | ⟨d, -, rfl⟩
      · exact hb
      · exact hb
    · rw [Eq.comm, toStep_next] at heq
      rcases arrivalWake_ok_cases heq with rfl | rfl | ⟨d, -, rfl⟩
      · exact hb
      · exact hb
      · exact hb
    · rw [Eq.comm, toStep_next] at heq
      rcases monitor_ok_cases heq with ⟨-, rfl⟩ | ⟨-, rfl⟩
      · exact hb
      · exact hb
    · injection heq with heq
      rw [heq, custStart_eq]
      exact invBusy_triggerPut hb
    · rw [Eq.comm, toStep_next] at heq
      unfold custGrantedStep at heq
      exact invBusy_custServiceDraw (by split <;> exact hb) heq
    · injection heq with heq
      rw [heq, custDone_eq]
      exact hb
    · injection heq with heq
      rw [heq]
      exact invBusy_triggerPut hb

theorem invBusy_run (cfg : SimConfig) (fuel idx : ℕ) :
    (∀ s, runSim cfg fuel idx = .done s → InvBusy s) ∧
    (∀ s, runSim cfg fuel idx = .fuelOut s → InvBusy s) := by
  obtain ⟨a, b, c⟩ := runLoop_rect cfg InvBusy InvBusy (fun _ => True)
    (fun s s1 hP hstep => invBusy_step_next hP hstep)
    (fun s s1 hP hstep => by
      obtain ⟨e, rest, hpop, hproc, rfl⟩ := step_stopped_elim hstep
      exact hP)
    (fun _ _ _ _ => trivial)
    fuel (initState cfg.simulation_duration idx) rfl
  exact ⟨a, b⟩

/-- Claim C10: at every point of every run — in particular at the end — the
`cashier_busy_time` accumulator equals the sum of the full drawn service
times of the customers that were granted the cashier, because the entire
drawn `service_time` is added at the moment service starts, before the
service suspension; so the reported busy time includes any portion of a
service extending past the simulation horizon. -/
theorem c10_busy_time_counts_full_drawn_services (cfg : SimConfig)
    (fuel idx : ℕ) (s : SimState)
    (h : runSim cfg fuel idx = .done s ∨ runSim cfg fuel idx = .fuelOut s) :
    s.cashier_busy_time = s.service_times.sum := by
  rcases h with h | h
  · exact (invBusy_run cfg fuel idx).1 s h
  · exact (invBusy_run cfg fuel idx).2 s h

theorem c10_busy_time_counts_full_drawn_services_witness :
    doneB.cashier_busy_time = doneB.service_times.sum :=
  c10_busy_time_counts_full_drawn_services cfgB 60 0 doneB (Or.inl (by with_unfolding_all rfl))


/-! ### The clock and horizon invariant (claims C5, C7) -/

theorem invClock_now_le {cfg : SimConfig} {s : SimState} (h : InvClock cfg s) :
    s.now ≤ cfg.simulation_duration := by
  obtain ⟨h1, h2, ⟨u, hu, hup⟩, -⟩ := h
  calc s.now ≤ u.time := h1 u hu
  _ = _ := h2 u hu hup

theorem invClock_appendEvent {cfg : SimConfig} {s : SimState} {t : ℚ} {r : ℕ}
    {p : Proc} (h : InvClock cfg s) (ht : s.now ≤ t) (hp : p ≠ .untilEvt) :
    InvClock cfg (appendEvent s t r p) := by
  obtain ⟨h1, h2, ⟨u, hu, hup⟩, h4⟩ := h
  refine ⟨?_, ?_, ⟨u, List.mem_append_left _ hu, hup⟩, h4⟩
  · intro x hx
    rcases List.mem_append.1 hx with hx | hx
    · exact h1 x hx
    · rw [List.mem_singleton.1 hx]
      exact ht
  · intro x hx hxp
    rcases List.mem_append.1 hx with hx | hx
    · exact h2 x hx hxp
    · rw [List.mem_singleton.1 hx] at hxp
      exact absurd hxp hp

theorem invClock_deliver {cfg : SimConfig} {s : SimState} {e : Ev}
    {rest : List Ev} (h : InvClock cfg s)
    (hpop : popMin s.events = some (e, rest)) (hne : e.proc ≠ .untilEvt) :
    InvClock cfg (deliverState s e rest) := by
  obtain ⟨h1, h2, ⟨u, hu, hup⟩, h4⟩ := h
  have hud : e.time ≤ cfg.simulation_duration := by
    calc e.time ≤ u.time := evLe_time (popMin_min hpop u hu)
    _ = _ := h2 u hu hup
  refine ⟨?_, ?_, ?_, ?_⟩
  · intro x hx
    exact evLe_time (popMin_min hpop x (popMin_rest_mem hpop hx))
  · intro x hx
    exact h2 x (popMin_rest_mem hpop hx)
  · rcases popMin_mem_split hpop hu with rfl | hu2
    · exact absurd hup hne
    · exact ⟨u, hu2, hup⟩
  · intro x hx
    rcases List.mem_append.1 hx with hx | hx
    · exact h4 x hx
    · rw [List.mem_singleton.1 hx]
      exact hud

theorem invClock_triggerPut {cfg : SimConfig} {s : SimState}
    (h : InvClock cfg s) : InvClock cfg (triggerPut s) := by
  rcases triggerPut_cases s with heq | ⟨pid, rest, -, -, heq⟩ <;> rw [heq]
  · exact h
  · exact invClock_appendEvent h (le_refl _) (by simp)

theorem invClock_step_next {cfg : SimConfig} {s s1 : SimState}
    (h : InvClock cfg s) (hstep : step cfg s = .next s1) : InvClock cfg s1 := by
  rcases step_cases hstep with ⟨-, heq⟩ | ⟨e, rest, hpop, hcase⟩
  · simp at heq
  · rcases hcase with ⟨hp, heq⟩ | ⟨hp, heq⟩ | ⟨hp, heq⟩ | ⟨hp, heq⟩ |
      ⟨pid, hp, heq⟩ | ⟨pid, hp, heq⟩ | ⟨pid, hp, heq⟩ | ⟨pid, hp, heq⟩
    · simp at heq
    · have hb := invClock_deliver h hpop (by simp [hp])
      rw [Eq.comm, toStep_next] at heq
      rcases arrivalStart_ok_cases heq with rfl | ⟨d, hd, rfl⟩
      · exact hb
      · exact invClock_appendEvent hb (le_add_of_nonneg_right hd) (by simp)
    · have hb := invClock_deliver h hpop (by simp [hp])
      rw [Eq.comm, toStep_next] at heq
      have hspawn : InvClock cfg (spawnCustomer (deliverState s e rest)) :=
        invClock_appendEvent hb (le_refl _) (by simp)
      rcases arrivalWake_ok_cases heq with rfl | rfl | ⟨d, hd, rfl⟩
      · exact hb
      · exact hspawn
      · exact invClock_appendEvent hspawn (le_add_of_nonneg_right hd) (by simp)
    · have hb := invClock_deliver h hpop (by simp [hp])
      rw [Eq.comm, toStep_next] at heq
      rcases monitor_ok_cases heq with ⟨-, rfl⟩ | ⟨-, rfl⟩
      · exact hb
      · exact invClock_appendEvent hb
          (le_add_of_nonneg_right (by norm_num)) (by simp)
    · have hb := invClock_deliver h hpop (by simp [hp])
      injection heq with heq
      rw [heq, custStart_eq]
      exact invClock_triggerPut hb
    · have hb := invClock_deliver h hpop (by simp [hp])
      rw [Eq.comm, toStep_next] at heq
      unfold custGrantedStep at heq
      obtain ⟨st, -, hst, rfl⟩ := custServiceDraw_ok_cases heq
      refine invClock_appendEvent ?_ (le_add_of_nonneg_right hst) (by simp)
      split <;> exact hb
    · have hb := invClock_deliver h hpop (by simp [hp])
      injection heq with heq
      rw [heq, custDone_eq]
      exact invClock_appendEvent hb (le_refl _) (by simp)
    · have hb := invClock_deliver h hpop (by simp [hp])
      injection heq with heq
      rw [heq]
      exact invClock_triggerPut hb

theorem invClock_stopped {cfg : SimConfig} {s s1 : SimState}
    (h : InvClock cfg s) (hstep : step cfg s = .stopped s1) :
    s1.now = cfg.simulation_duration ∧
    ∀ e ∈ s1.delivered, e.time ≤ cfg.simulation_duration := by
  obtain ⟨e, rest, hpop, hproc, rfl⟩ := step_stopped_elim hstep
  obtain ⟨h1, h2, h3, h4⟩ := h
  have het : e.time = cfg.simulation_duration := h2 e (popMin_mem hpop) hproc
  refine ⟨het, ?_⟩
  intro x hx
  rcases List.mem_append.1 hx with hx | hx
  · exact h4 x hx
  · rw [List.mem_singleton.1 hx]
    exact le_of_eq het

theorem invClock_init (cfg : SimConfig) (idx : ℕ)
    (h0 : 0 ≤ cfg.simulation_duration) :
    InvClock cfg (initState cfg.simulation_duration idx) := by
  refine ⟨?_, ?_, ?_, ?_⟩
  · intro e he
    have he2 : e ∈ [(⟨0, rankUrgent, 0, .arrivalStart⟩ : Ev),
        ⟨0, rankUrgent, 1, .monitorWake⟩,
        ⟨cfg.simulation_duration, rankUrgent, 2, .untilEvt⟩] := he
    rcases List.mem_cons.1 he2 with rfl | he2
    · exact le_refl _
    rcases List.mem_cons.1 he2 with rfl | he2
    · exact le_refl _
    rcases List.mem_cons.1 he2 with rfl | he2
    · exact h0
    · exact absurd he2 (List.not_mem_nil e)
  · intro e he hep
    have he2 : e ∈ [(⟨0, rankUrgent, 0, .arrivalStart⟩ : Ev),
        ⟨0, rankUrgent, 1, .monitorWake⟩,
        ⟨cfg.simulation_duration, rankUrgent, 2, .untilEvt⟩] := he
    rcases List.mem_cons.1 he2 with rfl | he2
    · exact absurd hep (by simp)
    rcases List.mem_cons.1 he2 with rfl | he2
    · exact absurd hep (by simp)
    rcases List.mem_cons.1 he2 with rfl | he2
    · rfl
    · exact absurd he2 (List.not_mem_nil e)
  · refine ⟨⟨cfg.simulation_duration, rankUrgent, 2, .untilEvt⟩, ?_, rfl⟩
    exact List.mem_cons_of_mem _ (List.mem_cons_of_mem _ (List.mem_cons_self _ _))
  · intro x hx
    exact absurd hx (List.not_mem_nil x)

theorem invClock_run (cfg : SimConfig) (fuel idx : ℕ)
    (h0 : 0 ≤ cfg.simulation_duration) :
    (∀ s, runSim cfg fuel idx = .done s →
      s.now = cfg.simulation_duration ∧
      ∀ e ∈ s.delivered, e.time ≤ cfg.simulation_duration) ∧
    (∀ s, runSim cfg fuel idx = .fuelOut s →
      s.now ≤ cfg.simulation_duration ∧
      ∀ e ∈ s.delivered, e.time ≤ cfg.simulation_duration) := by
  obtain ⟨a, b, c⟩ := runLoop_rect cfg (InvClock cfg)
    (fun s => s.now = cfg.simulation_duration ∧
      ∀ e ∈ s.delivered, e.time ≤ cfg.simulation_duration)
    (fun _ => True)
    (fun s s1 hP hstep => invClock_step_next hP hstep)
    (fun s s1 hP hstep => invClock_stopped hP hstep)
    (fun _ _ _ _ => trivial)
    fuel (initState cfg.simulation_duration idx) (invClock_init cfg idx h0)
  refine ⟨a, fun s hs => ?_⟩
  have hP := b s hs
  exact ⟨invClock_now_le hP, hP.2.2.2⟩

/-- Claim C7 (amended): the scheduler never advances the clock past the
horizon and never delivers an event scheduled after the horizon; a completed
run ends with the clock exactly at the horizon.  The stated stopping
condition is amended: the run stops when the until marker at the horizon is
delivered, which can leave events pending at a time that does NOT exceed the
duration (see the counterexample). -/
theorem c7_clock_never_passes_horizon (cfg : SimConfig) (fuel idx : ℕ)
    (s : SimState) (h0 : 0 ≤ cfg.simulation_duration)
    (h : runSim cfg fuel idx = .done s ∨ runSim cfg fuel idx = .fuelOut s) :
    s.now ≤ cfg.simulation_duration ∧
    ∀ e ∈ s.delivered, e.time ≤ cfg.simulation_duration := by
  rcases h with h | h
  · obtain ⟨h1, h2⟩ := (invClock_run cfg fuel idx h0).1 s h
    exact ⟨le_of_eq h1, h2⟩
  · exact (invClock_run cfg fuel idx h0).2 s h

theorem c7_clock_never_passes_horizon_witness :
    doneM.now ≤ cfgM.simulation_duration ∧
    ∀ e ∈ doneM.delivered, e.time ≤ cfgM.simulation_duration :=
  c7_clock_never_passes_horizon cfgM 60 0 doneM
    (by norm_num [cfgM, mkCfg]) (Or.inl (by with_unfolding_all rfl))

/-- Claim C7 counterexample: a run with no arrivals and horizon 1/10 stops
with the monitor wake-up still pending at time exactly 1/10: the pending set
is nonempty and the next scheduled time does not exceed the duration, so the
claimed stopping condition ("pending set empty or next scheduled time
exceeds the duration") does not hold at the stop, and that pending event is
never delivered even though its time does not exceed the horizon. -/
theorem c7_counterexample :
    runSim cfgM 60 0 = RunOutcome.done doneM ∧
    doneM.events = [⟨1/10, rankNormal, 3, .monitorWake⟩] ∧
    doneM.now = 1/10 ∧
    ¬ ((1 : ℚ)/10 > cfgM.simulation_duration) := by
  refine ⟨by with_unfolding_all rfl, by with_unfolding_all rfl,
    by with_unfolding_all rfl, ?_⟩
  show ¬ ((1 : ℚ)/10 > 1/10)
  norm_num

/-- Claim C5 (amended): `cashier_utilization` equals the busy-time
accumulator divided by `max(final clock, 1)` — the division-by-zero guard is
the constant 1, not a small epsilon, so the divisor equals the final clock
value only when the horizon is at least 1; for horizons between 0 and 1 the
divisor is 1 even though the clock is strictly positive (see the
counterexample). -/
theorem c5_utilization_divisor (cfg : SimConfig) (fuel idx : ℕ) (s : SimState)
    (h0 : 0 ≤ cfg.simulation_duration)
    (hdone : runSim cfg fuel idx = .done s) :
    (u_get_statistics s).cashier_utilization =
      s.cashier_busy_time / max s.now 1 ∧
    (1 ≤ cfg.simulation_duration →
      (u_get_statistics s).cashier_utilization =
        s.cashier_busy_time / s.now) := by
  have hnow := ((invClock_run cfg fuel idx h0).1 s hdone).1
  refine ⟨rfl, fun h1 => ?_⟩
  show s.cashier_busy_time / max s.now 1 = s.cashier_busy_time / s.now
  rw [max_eq_left (hnow ▸ h1)]

theorem c5_utilization_divisor_witness :
    (u_get_statistics doneW).cashier_utilization =
      doneW.cashier_busy_time / max doneW.now 1 ∧
    (1 ≤ cfgW.simulation_duration →
      (u_get_statistics doneW).cashier_utilization =
        doneW.cashier_busy_time / doneW.now) :=
  c5_utilization_divisor cfgW 60 0 doneW (by norm_num [cfgW, mkCfg])
    (by with_unfolding_all rfl)

/-- Claim C5 counterexample: a completed run with horizon 1/2 ends with the
clock strictly positive (1/2), yet the utilization divisor is 1, not the
final clock value: the reported utilization is 10 although busy time divided
by the clock is 20. -/
theorem c5_counterexample :
    runSim cfgB 60 0 = RunOutcome.done doneB ∧
    doneB.now = 1/2 ∧ doneB.cashier_busy_time = 10 ∧
    (u_get_statistics doneB).cashier_utilization = 10 ∧
    doneB.cashier_busy_time / doneB.now = 20 ∧
    ((10 : ℚ) ≠ 20 ∧ (0 : ℚ) < 1/2) := by
  refine ⟨by with_unfolding_all rfl, by with_unfolding_all rfl,
    by with_unfolding_all rfl, by with_unfolding_all rfl,
    by with_unfolding_all rfl, by norm_num⟩

/-! ### Nonnegative service times and utilization (claim C2) -/

theorem expovariate_ok_nonneg {lambd e st : ℚ} (hl : 0 < lambd) (he : 0 ≤ e)
    (h : expovariate lambd e = .ok st) : 0 ≤ st := by
  unfold expovariate at h
  rw [if_neg (ne_of_gt hl)] at h
  simp only [Except.ok.injEq] at h
  exact h ▸ div_nonneg he hl.le

theorem invServNonneg_triggerPut {s : SimState} (h : InvServNonneg s) :
    InvServNonneg (triggerPut s) := by
  rcases triggerPut_cases s with heq | ⟨pid, rest, -, -, heq⟩ <;> rw [heq] <;>
    exact h

theorem invServNonneg_step_next {cfg : SimConfig} {s s1 : SimState}
    (hsr : 0 < cfg.service_rate) (hd : ∀ i, 0 ≤ cfg.draws i)
    (h : InvServNonneg s) (hstep : step cfg s = .next s1) :
    InvServNonneg s1 := by
  rcases step_cases hstep with ⟨-, heq⟩ | ⟨e, rest, hpop, hcase⟩
  · simp at heq
  · have hb : InvServNonneg (deliverState s e rest) := h
    rcases hcase with ⟨hp, heq⟩ | ⟨hp, heq⟩ | ⟨hp, heq⟩ | ⟨hp, heq⟩ |
      ⟨pid, hp, heq⟩ | ⟨pid, hp, heq⟩ | ⟨pid, hp, heq⟩ | ⟨pid, hp, heq⟩
    · simp at heq
    · rw [Eq.comm, toStep_next] at heq
      rcases arrivalStart_ok_cases heq with rfl | ⟨d, -, rfl⟩
      · exact hb
      · exact hb
    · rw [Eq.comm, toStep_next] at heq
      rcases arrivalWake_ok_cases heq with rfl | rfl | ⟨d, -, rfl⟩
      · exact hb
      · exact hb
      · exact hb
    · rw [Eq.comm, toStep_next] at heq
      rcases monitor_ok_cases heq with ⟨-, rfl⟩ | ⟨-, rfl⟩
      · exact hb
      · exact hb
    · injection heq with heq
      rw [heq, custStart_eq]
      exact invServNonneg_triggerPut hb
    · rw [Eq.comm, toStep_next] at heq
      unfold custGrantedStep at heq
      obtain ⟨st, hst, -, rfl⟩ := custServiceDraw_ok_cases heq
      have hst0 : 0 ≤ st := expovariate_ok_nonneg hsr (hd _) hst
      intro x hx
      have hx2 : x ∈ (if cfg.variantH then _ else _ : SimState).service_times
          ++ [st] := hx
      rcases List.mem_append.1 hx2 with hx3 | hx3
      · revert hx3
        split <;> exact fun hx3 => hb x hx3
      · rw [List.mem_singleton.1 hx3]
        exact hst0
    · injection heq with heq
      rw [heq, custDone_eq]
      exact hb
    · injection heq with heq
      rw [heq]
      exact invServNonneg_triggerPut hb

theorem invServNonneg_run (cfg : SimConfig) (fuel idx : ℕ)
    (hsr : 0 < cfg.service_rate) (hd : ∀ i, 0 ≤ cfg.draws i) :
    (∀ s, runSim cfg fuel idx = .done s → InvServNonneg s) ∧
    (∀ s, runSim cfg fuel idx = .fuelOut s → InvServNonneg s) := by
  obtain ⟨a, b, c⟩ := runLoop_rect cfg InvServNonneg InvServNonneg
    (fun _ => True)
    (fun s s1 hP hstep => invServNonneg_step_next hsr hd hP hstep)
    (fun s s1 hP hstep => by
      obtain ⟨e, rest, hpop, hproc, rfl⟩ := step_stopped_elim hstep
      exact hP)
    (fun _ _ _ _ => trivial)
    fuel (initState cfg.simulation_duration idx) (fun x hx => absurd hx (List.not_mem_nil x))
  exact ⟨a, b⟩

/-- Claim C2 (amended): for every completed run with `arrival_rate ≥ 0`,
`service_rate > 0`, `duration > 0` and a nonnegative exponential source,
`0 ≤ cashier_utilization` holds; the upper bound `cashier_utilization ≤ 1`
does NOT hold in general, because the busy-time accumulator receives the
entire drawn service time when service starts, including any portion
extending past the horizon (see the counterexample). -/
theorem c2_utilization_nonneg (cfg : SimConfig) (fuel idx : ℕ) (s : SimState)
    (ha : 0 ≤ cfg.arrival_rate) (hsr : 0 < cfg.service_rate)
    (hdur : 0 < cfg.simulation_duration) (hd : ∀ i, 0 ≤ cfg.draws i)
    (h : runSim cfg fuel idx = .done s) :
    0 ≤ (u_get_statistics s).cashier_utilization := by
  have hb := (invBusy_run cfg fuel idx).1 s h
  have hn := (invServNonneg_run cfg fuel idx hsr hd).1 s h
  show 0 ≤ s.cashier_busy_time / max s.now 1
  apply div_nonneg
  · rw [hb]
    exact List.sum_nonneg hn
  · exact le_trans zero_le_one (le_max_right _ _)

theorem c2_utilization_nonneg_witness :
    0 ≤ (u_get_statistics doneW).cashier_utilization :=
  c2_utilization_nonneg cfgW 60 0 doneW (by norm_num [cfgW, mkCfg])
    (by norm_num [cfgW, mkCfg]) (by norm_num [cfgW, mkCfg])
    (fun i => by norm_num [cfgW, mkCfg, dwsOne])
    (by with_unfolding_all rfl)

/-- Claim C2 counterexample: a run (arrival rate 1, service rate 1, horizon
1/2) whose only customer draws a 10-minute service time reports utilization
10, violating `cashier_utilization ≤ 1`: the accumulated busy time (10) far
exceeds the elapsed simulated time (1/2). -/
theorem c2_counterexample :
    run_simulation cfgB 60 0 =
      .ok (⟨0, 10, 0, 0, 1⟩, 3) ∧ ¬ ((10 : ℚ) ≤ 1) :=
  ⟨by with_unfolding_all rfl, by norm_num⟩


/-! ### The zero-arrival-rate policy (claim C3) -/

theorem untilMem_popMin_ne_none {s : SimState} (h : UntilMem s) :
    popMin s.events ≠ none := by
  obtain ⟨u, hu, -⟩ := h
  cases hev : s.events with
  | nil => rw [hev] at hu; exact absurd hu (List.not_mem_nil u)
  | cons x xs => exact popMin_cons_ne_none x xs

theorem untilMem_appendEvent {s : SimState} {t : ℚ} {r : ℕ} {p : Proc}
    (h : UntilMem s) : UntilMem (appendEvent s t r p) := by
  obtain ⟨u, hu, hup⟩ := h
  exact ⟨u, List.mem_append_left _ hu, hup⟩

theorem untilMem_deliver {s : SimState} {e : Ev} {rest : List Ev}
    (h : UntilMem s) (hpop : popMin s.events = some (e, rest))
    (hne : e.proc ≠ .untilEvt) : UntilMem (deliverState s e rest) := by
  obtain ⟨u, hu, hup⟩ := h
  rcases popMin_mem_split hpop hu with rfl | hu2
  · exact absurd hup hne
  · exact ⟨u, hu2, hup⟩

theorem untilMem_triggerPut {s : SimState} (h : UntilMem s) :
    UntilMem (triggerPut s) := by
  rcases triggerPut_cases s with heq | ⟨pid, rest, -, -, heq⟩ <;> rw [heq]
  · exact h
  · exact untilMem_appendEvent h

theorem uArrival_nonpos_rate {cfg : SimConfig} {s : SimState}
    (h : ¬ cfg.arrival_rate > 0) : uArrivalLoop cfg s = .ok s := by
  unfold uArrivalLoop
  by_cases hnow : s.now ≤ cfg.simulation_duration
  · rw [if_pos hnow, if_neg h]
  · rw [if_neg hnow]

theorem expovariate_error_elim {lambd e : ℚ} {er : SimError} (hl : lambd ≠ 0)
    (h : expovariate lambd e = .error er) : False := by
  unfold expovariate at h
  rw [if_neg hl] at h
  simp at h

theorem timeout_error_elim {s : SimState} {d : ℚ} {p : Proc} {er : SimError}
    (hd : 0 ≤ d) (h : timeout s d p = .error er) : False := by
  unfold timeout at h
  split at h
  · next hneg => linarith
  · simp at h

theorem monitor_no_error {cfg : SimConfig} {s : SimState} {er : SimError}
    (h : monitorStep cfg s = .error er) : False := by
  unfold monitorStep at h
  split at h
  · exact timeout_error_elim (by norm_num) h
  · simp at h

theorem uArrival_error_elim {cfg : SimConfig} {s : SimState} {er : SimError}
    (hd : ∀ i, 0 ≤ cfg.draws i) (h : uArrivalLoop cfg s = .error er) :
    False := by
  unfold uArrivalLoop at h
  split at h
  · split at h
    · next hrate =>
      split at h
      · next heq => exact expovariate_error_elim (ne_of_gt hrate) heq
      · next delay heq =>
        exact timeout_error_elim
          (expovariate_ok_nonneg hrate (hd _) heq) h
    · simp at h
  · simp at h

theorem custServiceDraw_zero_rate {cfg : SimConfig} {s : SimState} {pid : ℕ}
    (h : cfg.service_rate = 0) :
    custServiceDraw cfg s pid = .error .zeroDivision := by
  unfold custServiceDraw expovariate
  rw [if_pos h]

theorem invZero_step_next {cfg : SimConfig} {s s1 : SimState}
    (hv : cfg.variantH = false) (ha : cfg.arrival_rate = 0)
    (h : InvZero s) (hstep : step cfg s = .next s1) : InvZero s1 := by
  obtain ⟨h1, h2, h3, h4, h5, h6, h7⟩ := h
  rcases step_cases hstep with ⟨-, heq⟩ | ⟨e, rest, hpop, hcase⟩
  · simp at heq
  · have hproc := h2 e (popMin_mem hpop)
    rcases hcase with ⟨hp, heq⟩ | ⟨hp, heq⟩ | ⟨hp, heq⟩ | ⟨hp, heq⟩ |
      ⟨pid, hp, heq⟩ | ⟨pid, hp, heq⟩ | ⟨pid, hp, heq⟩ | ⟨pid, hp, heq⟩
    · simp at heq
    · have hne : e.proc ≠ .untilEvt := by simp [hp]
      have hu2 := untilMem_deliver h1 hpop hne
      have h22 : ∀ x ∈ rest, x.proc = .arrivalStart ∨ x.proc = .monitorWake ∨
          x.proc = .untilEvt := fun x hx => h2 x (popMin_rest_mem hpop hx)
      rw [Eq.comm, toStep_next] at heq
      unfold arrivalStartStep at heq
      rw [hv] at heq
      simp only [Bool.false_eq_true, if_false] at heq
      rw [uArrival_nonpos_rate (by rw [ha]; norm_num)] at heq
      simp only [Except.ok.injEq] at heq
      rw [← heq]
      exact ⟨hu2, h22, h3, h4, h5, h6, h7⟩
    · rcases hproc with hc | hc | hc <;> rw [hp] at hc <;> simp at hc
    · have hne : e.proc ≠ .untilEvt := by simp [hp]
      have hu2 := untilMem_deliver h1 hpop hne
      have h22 : ∀ x ∈ rest, x.proc = .arrivalStart ∨ x.proc = .monitorWake ∨
          x.proc = .untilEvt := fun x hx => h2 x (popMin_rest_mem hpop hx)
      rw [Eq.comm, toStep_next] at heq
      rcases monitor_ok_cases heq with ⟨-, rfl⟩ | ⟨-, rfl⟩
      · exact ⟨hu2, h22, h3, h4, h5, h6, h7⟩
      · refine ⟨untilMem_appendEvent hu2, ?_, h3, h4, ?_, ?_, h7⟩
        · intro x hx
          have hx2 : x ∈ rest ++
              [(⟨(deliverState s e rest).now + 1/10, rankNormal,
                 s.nextEid, .monitorWake⟩ : Ev)] := hx
          rcases List.mem_append.1 hx2 with hx3 | hx3
          · exact h22 x hx3
          · rw [List.mem_singleton.1 hx3]
            exact Or.inr (Or.inl rfl)
        · show max s.max_queue_length s.put_queue.length = 0
          rw [h5, h7]
          rfl
        · intro q hq
          have hq2 : q ∈ s.queue_lengths ++ [s.put_queue.length] := hq
          rcases List.mem_append.1 hq2 with hq3 | hq3
          · exact h6 q hq3
          · rw [List.mem_singleton.1 hq3, h7]
            rfl
    · rcases hproc with hc | hc | hc <;> rw [hp] at hc <;> simp at hc
    · rcases hproc with hc | hc | hc <;> rw [hp] at hc <;> simp at hc
    · rcases hproc with hc | hc | hc <;> rw [hp] at hc <;> simp at hc
    · rcases hproc with hc | hc | hc <;> rw [hp] at hc <;> simp at hc

theorem invZero_no_error {cfg : SimConfig} {s : SimState} {er : SimError}
    (hv : cfg.variantH = false) (ha : cfg.arrival_rate = 0)
    (h : InvZero s) (hstep : step cfg s = .error er) : False := by
  obtain ⟨h1, h2, h3, h4, h5, h6, h7⟩ := h
  rcases step_cases hstep with ⟨hpop, -⟩ | ⟨e, rest, hpop, hcase⟩
  · exact untilMem_popMin_ne_none h1 hpop
  · have hproc := h2 e (popMin_mem hpop)
    rcases hcase with ⟨hp, heq⟩ | ⟨hp, heq⟩ | ⟨hp, heq⟩ | ⟨hp, heq⟩ |
      ⟨pid, hp, heq⟩ | ⟨pid, hp, heq⟩ | ⟨pid, hp, heq⟩ | ⟨pid, hp, heq⟩
    · simp at heq
    · rw [Eq.comm, toStep_err] at heq
      unfold arrivalStartStep at heq
      rw [hv] at heq
      simp only [Bool.false_eq_true, if_false] at heq
      rw [uArrival_nonpos_rate (by rw [ha]; norm_num)] at heq
      simp at heq
    · rcases hproc with hc | hc | hc <;> rw [hp] at hc <;> simp at hc
    · rw [Eq.comm, toStep_err] at heq
      exact monitor_no_error heq
    · rcases hproc with hc | hc | hc <;> rw [hp] at hc <;> simp at hc
    · rcases hproc with hc | hc | hc <;> rw [hp] at hc <;> simp at hc
    · rcases hproc with hc | hc | hc <;> rw [hp] at hc <;> simp at hc
    · rcases hproc with hc | hc | hc <;> rw [hp] at hc <;> simp at hc

theorem sum_cast_eq_zero : ∀ (l : List ℕ), (∀ q ∈ l, q = 0) →
    (l.map fun n => (n : ℚ)).sum = 0 := by
  intro l
  induction l with
  | nil => intro h; rfl
  | cons x xs ih =>
    intro h
    have hx : x = 0 := h x (List.mem_cons_self x xs)
    have hxs := ih (fun q hq => h q (List.mem_cons_of_mem x hq))
    show ((x : ℚ) :: xs.map fun n => (n : ℚ)).sum = 0
    rw [List.sum_cons, hxs, hx]
    simp

theorem invZero_stats {s : SimState} (h3 : s.waiting_times = [])
    (h4 : s.cashier_busy_time = 0) (h5 : s.max_queue_length = 0)
    (h6 : ∀ q ∈ s.queue_lengths, q = 0) :
    u_get_statistics s = zeroSummary := by
  unfold u_get_statistics zeroSummary
  simp only [Summary.mk.injEq]
  refine ⟨by rw [if_pos h3], by rw [h4, zero_div], by rw [h5]; rfl, ?_,
    by rw [h3]; rfl⟩
  by_cases hq : s.queue_lengths = []
  · rw [if_pos hq]
  · rw [if_neg hq]
    unfold listMean
    rw [sum_cast_eq_zero s.queue_lengths h6, zero_div]

theorem invZero_run (draws : ℕ → ℚ) (srate dur : ℚ) (fuel idx : ℕ) :
    (∀ er, runLoop (mkCfg false draws 0 srate dur) fuel
      (initState dur idx) ≠ .error er) ∧
    (∀ s, runLoop (mkCfg false draws 0 srate dur) fuel
      (initState dur idx) = .done s → u_get_statistics s = zeroSummary) ∧
    (∀ s, runLoop (mkCfg false draws 0 srate dur) fuel
      (initState dur idx) = .fuelOut s → u_get_statistics s = zeroSummary) := by
  have h0 : InvZero (initState dur idx) := by
    refine ⟨⟨⟨dur, rankUrgent, 2, .untilEvt⟩, ?_, rfl⟩, ?_, rfl, rfl, rfl,
      ?_, rfl⟩
    · exact List.mem_cons_of_mem _ (List.mem_cons_of_mem _
        (List.mem_cons_self _ _))
    · intro e he
      have he2 : e ∈ [(⟨0, rankUrgent, 0, .arrivalStart⟩ : Ev),
          ⟨0, rankUrgent, 1, .monitorWake⟩,
          ⟨dur, rankUrgent, 2, .untilEvt⟩] := he
      rcases List.mem_cons.1 he2 with rfl | he2
      · exact Or.inl rfl
      rcases List.mem_cons.1 he2 with rfl | he2
      · exact Or.inr (Or.inl rfl)
      rcases List.mem_cons.1 he2 with rfl | he2
      · exact Or.inr (Or.inr rfl)
      · exact absurd he2 (List.not_mem_nil e)
    · intro q hq
      exact absurd hq (List.not_mem_nil q)
  obtain ⟨a, b, c⟩ := runLoop_rect (mkCfg false draws 0 srate dur) InvZero
    (fun s => u_get_statistics s = zeroSummary) (fun _ => False)
    (fun s s1 hP hstep => invZero_step_next rfl rfl hP hstep)
    (fun s s1 hP hstep => by
      obtain ⟨e, rest, hpop, hproc, rfl⟩ := step_stopped_elim hstep
      obtain ⟨-, -, h3, h4, h5, h6, -⟩ := hP
      exact invZero_stats h3 h4 h5 h6)
    (fun s er hP hstep => invZero_no_error rfl rfl hP hstep)
    fuel (initState dur idx) h0
  exact ⟨fun er h => c er h, fun s h =>
    a s h, fun s h => invZero_stats (b s h).2.2.1 (b s h).2.2.2.1
      (b s h).2.2.2.2.1 (b s h).2.2.2.2.2.1⟩

theorem run_simulation_u_done {cfg : SimConfig} {fuel idx : ℕ} {s : SimState}
    (hv : cfg.variantH = false) (h : runSim cfg fuel idx = .done s) :
    run_simulation cfg fuel idx = .ok (u_get_statistics s, s.drawIdx) := by
  unfold run_simulation
  rw [h, hv]
  rfl

theorem run_simulation_error_cases {cfg : SimConfig} {fuel idx : ℕ}
    {er : SimError} (hv : cfg.variantH = false)
    (h : run_simulation cfg fuel idx = .error er) :
    runSim cfg fuel idx = .error er ∨
    (∃ s, runSim cfg fuel idx = .fuelOut s ∧ er = .fuelExhausted) := by
  unfold run_simulation at h
  split at h
  · rw [hv] at h
    simp at h
  · next s hs2 =>
    simp only [Except.error.injEq] at h
    exact Or.inr ⟨s, hs2, h.symm⟩
  · next er2 her2 =>
    simp only [Except.error.injEq] at h
    exact Or.inl (h ▸ her2)

/-- Claim C3 (amended): in the underscore variant — the file under test —
run_simulation(0, service_rate, duration) never raises for any
exponential stream (the zero rate is the explicit "no customers" policy) and
every summary it can return is the all-zero summary; the hyphen variant,
which lacks the `arrival_rate > 0` guard, instead raises ZeroDivisionError at
the very first inter-arrival draw (see the counterexample). -/
theorem c3_zero_arrival_rate_all_zero_summary (draws : ℕ → ℚ)
    (srate dur : ℚ) (fuel idx : ℕ) (hs : 0 < srate) (hd : 0 < dur) :
    (∀ er, runSim (mkCfg false draws 0 srate dur) fuel idx ≠ .error er) ∧
    (∀ s, runSim (mkCfg false draws 0 srate dur) fuel idx = .done s →
      u_get_statistics s = zeroSummary) ∧
    (∀ p, run_simulation (mkCfg false draws 0 srate dur) fuel idx = .ok p →
      p.1 = zeroSummary) ∧
    (∀ er, run_simulation (mkCfg false draws 0 srate dur) fuel idx =
      .error er → er = .fuelExhausted) := by
  obtain ⟨a, b, c⟩ := invZero_run draws srate dur fuel idx
  refine ⟨a, b, ?_, ?_⟩
  · intro p hp
    rcases hrs : runSim (mkCfg false draws 0 srate dur) fuel idx with
      s | s | er
    · rw [run_simulation_u_done rfl hrs] at hp
      simp only [Except.ok.injEq] at hp
      rw [← hp]
      exact b s hrs
    · unfold run_simulation at hp
      rw [hrs] at hp
      simp at hp
    · exact absurd hrs (a er)
  · intro er her
    rcases run_simulation_error_cases rfl her with h1 | ⟨s, -, h2⟩
    · exact absurd h1 (a er)
    · exact h2

theorem c3_zero_arrival_rate_all_zero_summary_witness :
    u_get_statistics doneW0 = zeroSummary :=
  (c3_zero_arrival_rate_all_zero_summary dwsOne 1 (1/4) 60 0 (by norm_num)
    (by norm_num)).2.1 doneW0 (by with_unfolding_all rfl)

/-- Claim C3 counterexample: the hyphen variant's run_simulation with
arrival_rate = 0 raises ZeroDivisionError (from `random.expovariate(0)` in
`customer_arrivals`) instead of succeeding with the all-zero summary. -/
theorem c3_counterexample :
    run_simulation cfgH0 60 0 = .error .zeroDivision := by
  with_unfolding_all rfl


/-! ### Zero service rate fails at the draw (claim C4) -/

theorem triggerPut_waiting (s : SimState) :
    (triggerPut s).waiting_times = s.waiting_times := by
  rcases triggerPut_cases s with heq | ⟨pid, rest, -, -, heq⟩ <;> rw [heq] <;>
    rfl

theorem custGranted_zero_rate {cfg : SimConfig} {s : SimState} {pid : ℕ}
    (h : cfg.service_rate = 0) :
    custGrantedStep cfg s pid = .error .zeroDivision := by
  unfold custGrantedStep
  exact custServiceDraw_zero_rate h

theorem invNoServe_step_next {cfg : SimConfig} {s s1 : SimState}
    (hr : cfg.service_rate = 0) (h : InvNoServe s)
    (hstep : step cfg s = .next s1) : InvNoServe s1 := by
  obtain ⟨h1, h2⟩ := h
  rcases step_cases hstep with ⟨-, heq⟩ | ⟨e, rest, hpop, hcase⟩
  · simp at heq
  · rcases hcase with ⟨hp, heq⟩ | ⟨hp, heq⟩ | ⟨hp, heq⟩ | ⟨hp, heq⟩ |
      ⟨pid, hp, heq⟩ | ⟨pid, hp, heq⟩ | ⟨pid, hp, heq⟩ | ⟨pid, hp, heq⟩
    · simp at heq
    · have hu2 := untilMem_deliver h1 hpop (by simp [hp])
      rw [Eq.comm, toStep_next] at heq
      rcases arrivalStart_ok_cases heq with rfl | ⟨d, -, rfl⟩
      · exact ⟨hu2, h2⟩
      · exact ⟨untilMem_appendEvent hu2, h2⟩
    · have hu2 := untilMem_deliver h1 hpop (by simp [hp])
      rw [Eq.comm, toStep_next] at heq
      rcases arrivalWake_ok_cases heq with rfl | rfl | ⟨d, -, rfl⟩
      · exact ⟨hu2, h2⟩
      · exact ⟨untilMem_appendEvent hu2, h2⟩
      · exact ⟨untilMem_appendEvent (untilMem_appendEvent hu2), h2⟩
    · have hu2 := untilMem_deliver h1 hpop (by simp [hp])
      rw [Eq.comm, toStep_next] at heq
      rcases monitor_ok_cases heq with ⟨-, rfl⟩ | ⟨-, rfl⟩
      · exact ⟨hu2, h2⟩
      · exact ⟨untilMem_appendEvent hu2, h2⟩
    · have hu2 := untilMem_deliver h1 hpop (by simp [hp])
      injection heq with heq
      rw [heq, custStart_eq]
      exact ⟨untilMem_triggerPut hu2, (triggerPut_waiting _).trans h2⟩
    · rw [Eq.comm, toStep_next, custGranted_zero_rate hr] at heq
      simp at heq
    · have hu2 := untilMem_deliver h1 hpop (by simp [hp])
      injection heq with heq
      rw [heq, custDone_eq]
      exact ⟨untilMem_appendEvent hu2, h2⟩
    · have hu2 := untilMem_deliver h1 hpop (by simp [hp])
      injection heq with heq
      rw [heq]
      exact ⟨untilMem_triggerPut hu2, (triggerPut_waiting _).trans h2⟩

theorem hArrival_error_elim {cfg : SimConfig} {s : SimState} {er : SimError}
    (hd : ∀ i, 0 ≤ cfg.draws i) (ha : 0 < cfg.arrival_rate)
    (h : hArrivalLoop cfg s = .error er) : False := by
  unfold hArrivalLoop at h
  split at h
  · next heq => exact expovariate_error_elim (ne_of_gt ha) heq
  · next delay heq =>
    exact timeout_error_elim (expovariate_ok_nonneg ha (hd _) heq) h

theorem invNoServe_error {cfg : SimConfig} {s : SimState} {er : SimError}
    (hv : cfg.variantH = false) (hr : cfg.service_rate = 0)
    (hd : ∀ i, 0 ≤ cfg.draws i) (h : InvNoServe s)
    (hstep : step cfg s = .error er) : er = .zeroDivision := by
  obtain ⟨h1, h2⟩ := h
  rcases step_cases hstep with ⟨hpop, -⟩ | ⟨e, rest, hpop, hcase⟩
  · exact absurd hpop (untilMem_popMin_ne_none h1)
  · rcases hcase with ⟨hp, heq⟩ | ⟨hp, heq⟩ | ⟨hp, heq⟩ | ⟨hp, heq⟩ |
      ⟨pid, hp, heq⟩ | ⟨pid, hp, heq⟩ | ⟨pid, hp, heq⟩ | ⟨pid, hp, heq⟩
    · simp at heq
    · rw [Eq.comm, toStep_err] at heq
      unfold arrivalStartStep at heq
      rw [hv] at heq
      simp only [Bool.false_eq_true, if_false] at heq
      exact absurd heq (fun hc => uArrival_error_elim hd hc)
    · rw [Eq.comm, toStep_err] at heq
      unfold arrivalWakeStep at heq
      rw [hv] at heq
      simp only [Bool.false_eq_true, if_false] at heq
      exact absurd heq (fun hc => uArrival_error_elim hd hc)
    · rw [Eq.comm, toStep_err] at heq
      exact absurd heq (fun hc => monitor_no_error hc)
    · simp at heq
    · rw [Eq.comm, toStep_err, custGranted_zero_rate hr] at heq
      simp only [Except.error.injEq] at heq
      exact heq.symm
    · simp at heq
    · simp at heq

theorem invNoServe_run (draws : ℕ → ℚ) (a dur : ℚ) (fuel idx : ℕ)
    (hd : ∀ i, 0 ≤ draws i) :
    (∀ er, runSim (mkCfg false draws a 0 dur) fuel idx = .error er →
      er = .zeroDivision) ∧
    (∀ s, runSim (mkCfg false draws a 0 dur) fuel idx = .done s →
      s.waiting_times = []) ∧
    (∀ s, runSim (mkCfg false draws a 0 dur) fuel idx = .fuelOut s →
      s.waiting_times = []) := by
  have h0 : InvNoServe (initState dur idx) := by
    refine ⟨⟨⟨dur, rankUrgent, 2, .untilEvt⟩, ?_, rfl⟩, rfl⟩
    exact List.mem_cons_of_mem _ (List.mem_cons_of_mem _
      (List.mem_cons_self _ _))
  obtain ⟨q1, q2, q3⟩ := runLoop_rect (mkCfg false draws a 0 dur) InvNoServe
    (fun s => s.waiting_times = []) (fun er => er = .zeroDivision)
    (fun s s1 hP hstep => invNoServe_step_next rfl hP hstep)
    (fun s s1 hP hstep => by
      obtain ⟨e, rest, hpop, hproc, rfl⟩ := step_stopped_elim hstep
      exact hP.2)
    (fun s er hP hstep => invNoServe_error rfl rfl hd hP hstep)
    fuel (initState dur idx) h0
  exact ⟨fun er h => q3 er h, fun s h => q1 s h, fun s h => (q2 s h).2⟩

/-- Claim C4 (amended): in the underscore variant with `service_rate = 0`
and a nonnegative exponential source, a run in which any customer reaches
the service-time draw fails with ZeroDivisionError — no `InvalidRateError`
exists in the code — and the error propagates uncaught out of
run_simulation; contrapositively, the only possible failure is
ZeroDivisionError, and a run that does not fail has recorded no waiting
time, i.e. no customer ever reached the draw.  For `service_rate < 0` the
claim fails differently: the draw itself succeeds and the run dies later at
the service timeout with a negative-delay ValueError (see the
counterexample). -/
theorem c4_zero_service_rate_zero_division (draws : ℕ → ℚ) (a dur : ℚ)
    (fuel idx : ℕ) (hd : ∀ i, 0 ≤ draws i) :
    (∀ er, runSim (mkCfg false draws a 0 dur) fuel idx = .error er →
      er = .zeroDivision) ∧
    (∀ s, runSim (mkCfg false draws a 0 dur) fuel idx = .done s →
      s.waiting_times = []) ∧
    (∀ er, run_simulation (mkCfg false draws a 0 dur) fuel idx = .error er →
      er = .zeroDivision ∨ er = .fuelExhausted) := by
  obtain ⟨q1, q2, q3⟩ := invNoServe_run draws a dur fuel idx hd
  refine ⟨q1, q2, ?_⟩
  intro er her
  rcases run_simulation_error_cases rfl her with h1 | ⟨s, -, h2⟩
  · exact Or.inl (q1 er h1)
  · exact Or.inr h2

theorem c4_zero_service_rate_zero_division_witness :
    runSim cfgWS0 60 0 = RunOutcome.error SimError.zeroDivision ∧
    SimError.zeroDivision = SimError.zeroDivision :=
  ⟨by with_unfolding_all rfl,
    (c4_zero_service_rate_zero_division dwsOne 1 2 60 0
      (fun i => by norm_num [dwsOne])).1 SimError.zeroDivision
      (by with_unfolding_all rfl)⟩

/-- Claim C4 counterexample: with `service_rate = -1` the service-time draw
itself SUCCEEDS — `expovariate` silently returns a negative value, raising no
rate error — and the run fails only afterwards, at `timeout(service_time)`,
with SimPy's negative-delay ValueError; with `service_rate = 0` the failure
is a ZeroDivisionError.  In neither case does an `InvalidRateError` exist,
so "fails with InvalidRateError" holds for no nonpositive service rate. -/
theorem c4_counterexample :
    expovariate (-1) (1/2) = .ok (-(1/2)) ∧
    run_simulation cfgNeg 60 0 = .error .negativeDelay ∧
    run_simulation cfgZero 60 0 = .error .zeroDivision ∧
    SimError.negativeDelay ≠ SimError.zeroDivision := by
  refine ⟨by with_unfolding_all rfl, by with_unfolding_all rfl,
    by with_unfolding_all rfl, by simp⟩


/-! ### Determinism (claim C8) -/

/-- Claim C8: determinism — with the random-variate source seeded identically
(equal unit-exponential draw streams) and identical arrival rate, service
rate and duration, two calls of run_simulation produce identical summaries:
the embedded run is a function of the stream and the parameters alone, and
the event-queue tie-break (time, rank, event id) is deterministic. -/
theorem c8_run_simulation_deterministic (vh : Bool) (draws1 draws2 : ℕ → ℚ)
    (a sr d : ℚ) (fuel idx : ℕ) (h : ∀ i, draws1 i = draws2 i) :
    run_simulation (mkCfg vh draws1 a sr d) fuel idx =
      run_simulation (mkCfg vh draws2 a sr d) fuel idx := by
  rw [funext h]

theorem c8_run_simulation_deterministic_witness :
    run_simulation (mkCfg false dwsA 1 1 (1/4)) 60 0 =
      run_simulation (mkCfg false dwsA 1 1 (1/4)) 60 0 :=
  c8_run_simulation_deterministic false dwsA dwsA 1 1 (1/4) 60 0
    (fun i => rfl)

/-! ### Batch averaging (claim C9) -/

theorem meanExc_ok {l : List ℚ} {m : ℚ} (h : meanExc l = .ok m) :
    m = l.sum / (l.length : ℚ) := by
  unfold meanExc at h
  split at h
  · simp at h
  · simp only [Except.ok.injEq] at h
    exact h.symm

theorem runStats_length (vh : Bool) (draws : ℕ → ℚ) (fuel : ℕ)
    (a sr d : ℚ) : ∀ (n idx : ℕ) {p : List Summary × ℕ},
    runStats vh draws fuel a sr d n idx = .ok p → p.1.length = n := by
  intro n
  induction n with
  | zero =>
    intro idx p h
    unfold runStats at h
    simp only [Except.ok.injEq] at h
    rw [← h]
    rfl
  | succ n ih =>
    intro idx p h
    unfold runStats at h
    split at h
    · simp at h
    · next st idx1 hrun =>
      split at h
      · simp at h
      · next rest idx2 hrest =>
        simp only [Except.ok.injEq] at h
        rw [← h]
        show (st :: rest).length = n + 1
        rw [List.length_cons, ih idx1 hrest]

theorem run_multiple_aux_spec (vh : Bool) (draws : ℕ → ℚ) (fuel : ℕ)
    (sr d : ℚ) (n : ℕ) :
    ∀ (rates : List ℚ) (idx : ℕ) (rs : List MultiSummary),
      run_multiple_aux vh draws fuel sr d n rates idx = .ok rs →
      rs.map (·.arrival_rate) = rates ∧
      ∀ m ∈ rs, m.service_rate = sr ∧
        ∃ batch j1 j2,
          runStats vh draws fuel m.arrival_rate sr d n j1 = .ok (batch, j2) ∧
          batch.length = n ∧
          m.avg_waiting_time = (batch.map (·.avg_waiting_time)).sum / (n : ℚ) ∧
          m.cashier_utilization =
            (batch.map (·.cashier_utilization)).sum / (n : ℚ) ∧
          m.max_queue_length = (batch.map (·.max_queue_length)).sum / (n : ℚ) ∧
          m.avg_queue_length = (batch.map (·.avg_queue_length)).sum / (n : ℚ) ∧
          m.total_customers = (batch.map (·.total_customers)).sum / (n : ℚ) := by
  intro rates
  induction rates with
  | nil =>
    intro idx rs h
    unfold run_multiple_aux at h
    simp only [Except.ok.injEq] at h
    rw [← h]
    exact ⟨rfl, fun m hm => absurd hm (List.not_mem_nil m)⟩
  | cons rate rs2 ih =>
    intro idx rs h
    unfold run_multiple_aux at h
    split at h
    · simp at h
    · next stats idx1 hstats =>
      split at h
      · simp at h
      · next m1 hm1 =>
        split at h
        · simp at h
        · next m2 hm2 =>
          split at h
          · simp at h
          · next m3 hm3 =>
            split at h
            · simp at h
            · next m4 hm4 =>
              split at h
              · simp at h
              · next m5 hm5 =>
                split at h
                · simp at h
                · next rest hrest =>
                  simp only [Except.ok.injEq] at h
                  subst h
                  obtain ⟨hmap, hall⟩ := ih idx1 rest hrest
                  have hlen := runStats_length vh draws fuel rate sr d n idx
                    hstats
                  refine ⟨by rw [List.map_cons, hmap], ?_⟩
                  intro m hm
                  rcases List.mem_cons.1 hm with rfl | hm2
                  · refine ⟨rfl, stats, idx, idx1, hstats, hlen, ?_, ?_, ?_,
                      ?_, ?_⟩
                    · show m1 = (stats.map (·.avg_waiting_time)).sum / (n : ℚ)
                      rw [meanExc_ok hm1, List.length_map, hlen]
                    · show m2 =
                        (stats.map (·.cashier_utilization)).sum / (n : ℚ)
                      rw [meanExc_ok hm2, List.length_map, hlen]
                    · show m3 = (stats.map (·.max_queue_length)).sum / (n : ℚ)
                      rw [meanExc_ok hm3, List.length_map, hlen]
                    · show m4 = (stats.map (·.avg_queue_length)).sum / (n : ℚ)
                      rw [meanExc_ok hm4, List.length_map, hlen]
                    · show m5 = (stats.map (·.total_customers)).sum / (n : ℚ)
                      rw [meanExc_ok hm5, List.length_map, hlen]
                  · exact hall m hm2

/-- Claim C9 (amended): for every num_runs ≥ 1, whenever
run_multiple_simulations returns a list, it contains one averaged row per
arrival rate, in the order of the input sequence; every row carries the
given service rate, and each of its summary fields is the arithmetic mean of
that field over the num_runs consecutive single-run summaries computed for
that row's arrival rate.  For num_runs = 0 the claim fails: statistics.mean
is applied to an empty sequence and the whole call raises StatisticsError
(see the counterexample). -/
theorem c9_run_multiple_means_and_order (vh : Bool) (draws : ℕ → ℚ)
    (fuel : ℕ) (rates : List ℚ) (sr d : ℚ) (n : ℕ) (rs : List MultiSummary)
    (hn : 1 ≤ n)
    (h : run_multiple_simulations vh draws fuel rates sr d n = .ok rs) :
    rs.map (·.arrival_rate) = rates ∧
    ∀ m ∈ rs, m.service_rate = sr ∧
      ∃ batch j1 j2,
        runStats vh draws fuel m.arrival_rate sr d n j1 = .ok (batch, j2) ∧
        batch.length = n ∧
        m.avg_waiting_time = (batch.map (·.avg_waiting_time)).sum / (n : ℚ) ∧
        m.cashier_utilization =
          (batch.map (·.cashier_utilization)).sum / (n : ℚ) ∧
        m.max_queue_length = (batch.map (·.max_queue_length)).sum / (n : ℚ) ∧
        m.avg_queue_length = (batch.map (·.avg_queue_length)).sum / (n : ℚ) ∧
        m.total_customers = (batch.map (·.total_customers)).sum / (n : ℚ) :=
  run_multiple_aux_spec vh draws fuel sr d n rates 0 rs h

theorem c9_run_multiple_means_and_order_witness :
    [c9row].map (·.arrival_rate) = [(0 : ℚ)] ∧ c9row.service_rate = 1 :=
  have h := c9_run_multiple_means_and_order false dwsOne 60 [0] 1 (1/4) 1
    [c9row] (le_refl 1) (by with_unfolding_all rfl)
  ⟨h.1, (h.2 c9row (List.mem_singleton_self _)).1⟩

/-- Claim C9 counterexample: with num_runs = 0 and the nonempty rate list
[1], run_multiple_simulations raises StatisticsError (statistics.mean of an
empty sequence) instead of returning one averaged summary per rate. -/
theorem c9_counterexample :
    run_multiple_simulations false dwsOne 60 [1] 1 (1/4) 0 =
      .error .statisticsError := by
  with_unfolding_all rfl

/-! ### The average queue length is not time-weighted (claim C1) -/

/-- Claim C1 (code defect): on the concrete run with arrival rate 1, service
rate 1 and horizon 1/4 — sampling queue lengths 0, 1, 1 at times 0, 1/10,
1/5 — the underscore variant's get_statistics reports the PLAIN arithmetic
mean 2/3 of the samples, while the time-weighted average defined by the
specification (weights 1/10, 1/10, 1/20, the last extending to the horizon)
is 3/5; and the hyphen variant, whose comment announces the time-weighted
average, instead raises numpy's length-mismatch error on the same input
because it drops the last sample but keeps all the weights.  Neither variant
computes the specified time-weighted average. -/
theorem c1_avg_queue_length_not_time_weighted :
    runSim cfgA 60 0 = RunOutcome.done doneA ∧
    doneA.queue_lengths = [0, 1, 1] ∧
    doneA.queue_length_times = [0, 1/10, 1/5] ∧
    (u_get_statistics doneA).avg_queue_length = 2/3 ∧
    specTimeWeightedAvg doneA.queue_lengths doneA.queue_length_times
      cfgA.simulation_duration = 3/5 ∧
    (2 : ℚ)/3 ≠ 3/5 ∧
    run_simulation cfgAH 60 0 = .error .shapeMismatch := by
  refine ⟨by with_unfolding_all rfl, by with_unfolding_all rfl,
    by with_unfolding_all rfl, by with_unfolding_all rfl,
    by with_unfolding_all rfl, by norm_num, by with_unfolding_all rfl⟩

end Checkout
